import Mathlib

/-!
# Verification of the CoreMark linked-list benchmark core (`lugt/coremark`)

This file gives a shallow embedding in Lean 4 of the linked-list benchmark
engine of the repository (`src/all.c`): list construction from a flat memory
region (`core_list_init`, `core_list_insert_new`), searching
(`core_list_find`), reversal (`core_list_reverse`), removal with exact undo
(`core_list_remove`, `core_list_undo_remove`), the non-recursive bottom-up
merge sort (`core_list_mergesort`), the CRC utilities (`crcu8`, `crcu16`,
`crcu32`, `crc16`), and the benchmark orchestrator (`core_bench_list`,
`iterate`) together with its collaborators (`calc_func`, `core_bench_state`,
`core_bench_matrix` and their initializers).

Modelling conventions:
* 16-bit machine quantities are modelled by their bit patterns as `Nat`
  values `< 2^16`; where C performs signed arithmetic or comparisons the
  pattern is converted through `toS16`.  `ee_s16 idx` fields are kept as
  `Int` (their signed value), since the code only ever compares and
  subtracts them.
* Pointer-linked lists are modelled as Lean `List`s of their payloads; node
  identity, where it matters, is modelled by an explicit `id` field.
* Fallible code paths (out-of-capacity allocation, and the null-pointer
  dereference `tail->next = NULL` that `core_list_mergesort` performs when
  handed an empty list) are modelled with `Option`.
* The comparator of `core_list_mergesort` may mutate the two compared
  records and a threaded result-state (`cmp_complex` recomputes cached
  values via `calc_func`; `cmp_idx` with a NULL context restores backup
  bytes).  The comparator type is therefore
  `α → α → σ → Int × α × α × σ`: result value, updated left element,
  updated right element, updated state.
-/

namespace CoreMark

open List

/-- Truncate to an unsigned 16-bit pattern (`(ee_u16)x`). -/
def u16 (n : Nat) : Nat := n % 65536

/-- Truncate to an unsigned 8-bit pattern (`(ee_u8)x`). -/
def u8 (n : Nat) : Nat := n % 256

/-- Signed value of a 16-bit pattern (`(ee_s16)` reinterpretation). -/
def toS16 (n : Nat) : Int := if n % 65536 < 32768 then (n % 65536 : Int) else (n % 65536 : Int) - 65536

/-- 16-bit pattern of an integer (two's complement, `(ee_u16)(ee_s16)x`). -/
def ofS16 (i : Int) : Nat := (i % 65536).toNat

/-- Signed value of a 32-bit pattern. -/
def toS32 (n : Nat) : Int := if n % 4294967296 < 2147483648 then (n % 4294967296 : Int) else (n % 4294967296 : Int) - 4294967296

/-- 32-bit pattern of an integer (two's complement). -/
def ofS32 (i : Int) : Nat := (i % 4294967296).toNat

/-!
## CRC utilities (src/all.c lines 1896-1939)
-/

/-- One step of the bit-serial CRC (one iteration of the loop in `crcu8`). -/
def crcu8Step (p : Nat × Nat) : Nat × Nat :=
  let data := p.1
  let crc := p.2
  let x16 := (data &&& 1) ^^^ (crc &&& 1)
  let data := data >>> 1
  if x16 = 1 then
    (data, ((crc ^^^ 0x4002) >>> 1) ||| 0x8000)
  else
    (data, (crc >>> 1) &&& 0x7fff)

/-- `crcu8` from src/all.c: 8 rounds of the bit-serial CRC over one byte. -/
def crcu8 (data : Nat) (crc : Nat) : Nat :=
  (crcu8Step^[8] (u8 data, crc)).2

/-- `crcu16` from src/all.c. -/
def crcu16 (newval : Nat) (crc : Nat) : Nat :=
  crcu8 (u8 (newval >>> 8)) (crcu8 (u8 newval) crc)

/-- `crcu32` from src/all.c: folds the two 16-bit halves through `crc16`. -/
def crcu32 (newval : Nat) (crc : Nat) : Nat :=
  crcu16 (u16 (newval >>> 16)) (crcu16 (u16 newval) crc)

/-- `crc16` from src/all.c (cast of the signed argument to `ee_u16` is a
pattern-level no-op in our encoding). -/
def crc16 (newval : Nat) (crc : Nat) : Nat :=
  crcu16 (u16 newval) crc

/-!
## Data model: `list_data_s` records and list nodes
-/

/-- `list_data_s`: `idx` is kept as its signed value, `data16` as its 16-bit
pattern. -/
structure ListData where
  idx : Int
  data16 : Nat
  deriving DecidableEq, Repr

/-- A list cell with an identity (the arena slot the node occupies) and the
record it currently owns.  Links are implicit in the `List` order. -/
structure LNode (α : Type) where
  id : Nat
  dat : α
  deriving DecidableEq, Repr

/-!
## `core_list_mergesort` (src/all.c lines 499-595)

The comparator type `α → α → σ → Int × α × α × σ` threads both the (possibly
mutated) compared elements and the `core_results` state.
-/

/-- The inner merge loop of `core_list_mergesort`, structurally recursive on
an explicit bound (so that the kernel can evaluate it); `fuel` is
plumbing only — any value `≥ xs.length + ys.length` gives the same result
(`cMergeF_fuel`). -/
def cMergeF (cmp : α → α → σ → Int × α × α × σ) : Nat → List α → List α → σ → List α × σ
  | 0, xs, ys, s => (xs ++ ys, s)
  | _ + 1, [], ys, s => (ys, s)
  | _ + 1, x :: xs, [], s => (x :: xs, s)
  | fuel + 1, x :: xs, y :: ys, s =>
    let r := cmp x y s
    if r.1 ≤ 0 then
      let rec1 := cMergeF cmp fuel xs (r.2.2.1 :: ys) r.2.2.2
      (r.2.1 :: rec1.1, rec1.2)
    else
      let rec1 := cMergeF cmp fuel (r.2.1 :: xs) ys r.2.2.2
      (r.2.2.1 :: rec1.1, rec1.2)

/-- The inner merge loop of `core_list_mergesort`: merge two runs, taking
from the left run on `cmp ≤ 0` (ties go left), threading comparator effects.
Elements are taken without comparison when a run is exhausted. -/
def cMerge (cmp : α → α → σ → Int × α × α × σ) (xs ys : List α) (s : σ) : List α × σ :=
  cMergeF cmp (xs.length + ys.length) xs ys s

theorem cMergeF_fuel (cmp : α → α → σ → Int × α × α × σ) :
    ∀ (f : Nat) (xs ys : List α) (s : σ), xs.length + ys.length ≤ f →
      cMergeF cmp f xs ys s = cMergeF cmp (xs.length + ys.length) xs ys s := by
  intro f
  induction f with
  | zero =>
    intro xs ys s h
    have hx : xs = [] := by cases xs <;> simp_all
    have hy : ys = [] := by cases ys <;> simp_all
    subst hx; subst hy; rfl
  | succ f ih =>
    intro xs ys s h
    cases xs with
    | nil =>
      cases ys with
      | nil => rfl
      | cons y ys => rfl
    | cons x xs =>
      cases ys with
      | nil => rfl
      | cons y ys =>
        show cMergeF cmp (f + 1) (x :: xs) (y :: ys) s
          = cMergeF cmp ((x :: xs).length + (y :: ys).length) (x :: xs) (y :: ys) s
        have hL : (x :: xs).length + (y :: ys).length
            = (xs.length + (y :: ys).length) + 1 := by simp; omega
        rw [hL, cMergeF, cMergeF]
        by_cases hc : (cmp x y s).1 ≤ 0
        · simp only [hc, if_pos]
          rw [ih xs ((cmp x y s).2.2.1 :: ys) (cmp x y s).2.2.2 (by simp at h ⊢; omega)]
          simp
        · simp only [hc, if_neg, if_false]
          rw [ih ((cmp x y s).2.1 :: xs) ys (cmp x y s).2.2.2 (by simp at h ⊢; omega)]
          have he : xs.length + 1 + ys.length = xs.length + (ys.length + 1) := by omega
          simp [he]

theorem cMerge_nil_left (cmp : α → α → σ → Int × α × α × σ) (ys : List α) (s : σ) :
    cMerge cmp [] ys s = (ys, s) := by
  cases ys <;> rfl

theorem cMerge_nil_right (cmp : α → α → σ → Int × α × α × σ) (x : α) (xs : List α) (s : σ) :
    cMerge cmp (x :: xs) [] s = (x :: xs, s) := rfl

/-- The defining equation of the merge loop in the two-cons case. -/
theorem cMerge_cons_cons (cmp : α → α → σ → Int × α × α × σ) (x y : α) (xs ys : List α) (s : σ) :
    cMerge cmp (x :: xs) (y :: ys) s =
      (let r := cmp x y s
      if r.1 ≤ 0 then
        let rec1 := cMerge cmp xs (r.2.2.1 :: ys) r.2.2.2
        (r.2.1 :: rec1.1, rec1.2)
      else
        let rec1 := cMerge cmp (r.2.1 :: xs) ys r.2.2.2
        (r.2.2.1 :: rec1.1, rec1.2)) := by
  show cMergeF cmp ((x :: xs).length + (y :: ys).length) (x :: xs) (y :: ys) s = _
  have hL : (x :: xs).length + (y :: ys).length = (xs.length + (y :: ys).length) + 1 := by
    simp; omega
  rw [hL, cMergeF]
  by_cases hc : (cmp x y s).1 ≤ 0
  · simp only [hc, if_pos]
    rw [cMergeF_fuel cmp _ _ _ _ (by simp)]
    rfl
  · simp only [hc, if_neg, if_false]
    rw [cMergeF_fuel cmp _ _ _ _ (by simp; omega)]
    rfl

/-- One pass of the outer loop of `core_list_mergesort`, structurally
recursive on an explicit bound; any `fuel ≥ l.length` gives the same result
(`sortPassF_fuel`). -/
def sortPassF (cmp : α → α → σ → Int × α × α × σ) (insize : Nat) :
    Nat → List α → σ → List α × Nat × σ
  | _, [], s => ([], 0, s)
  | 0, _ :: _, s => ([], 0, s)
  | fuel + 1, x :: xs, s =>
    let m := cMerge cmp ((x :: xs).take insize) (((x :: xs).drop insize).take insize) s
    let rest := sortPassF cmp insize fuel (xs.drop (2 * insize - 1)) m.2
    (m.1 ++ rest.1, rest.2.1 + 1, rest.2.2)

/-- One pass of the outer loop of `core_list_mergesort`: split the list into
consecutive pairs of runs of length `insize` and merge each pair, counting
the merges (`nmerges`).  Faithful for `insize ≥ 1` (the code starts at 1 and
doubles). -/
def sortPass (cmp : α → α → σ → Int × α × α × σ) (insize : Nat) (l : List α) (s : σ) :
    List α × Nat × σ :=
  sortPassF cmp insize l.length l s

theorem sortPassF_fuel (cmp : α → α → σ → Int × α × α × σ) (insize : Nat) :
    ∀ (f : Nat) (l : List α) (s : σ), l.length ≤ f →
      sortPassF cmp insize f l s = sortPassF cmp insize l.length l s := by
  intro f
  induction f using Nat.strong_induction_on with
  | _ f ih =>
    intro l s h
    cases l with
    | nil => cases f <;> rfl
    | cons x xs =>
      cases f with
      | zero => simp at h
      | succ f' =>
        simp only [List.length_cons] at h
        show sortPassF cmp insize (f' + 1) (x :: xs) s
          = sortPassF cmp insize (xs.length + 1) (x :: xs) s
        rw [sortPassF, sortPassF]
        rw [ih f' (by omega) (xs.drop (2 * insize - 1)) _ (by simp; omega)]
        rw [ih xs.length (by omega) (xs.drop (2 * insize - 1)) _ (by simp)]

theorem sortPass_nil (cmp : α → α → σ → Int × α × α × σ) (insize : Nat) (s : σ) :
    sortPass cmp insize [] s = ([], 0, s) := rfl

/-- The defining equation of the pass in the cons case. -/
theorem sortPass_cons (cmp : α → α → σ → Int × α × α × σ) (insize : Nat) (x : α)
    (xs : List α) (s : σ) :
    sortPass cmp insize (x :: xs) s =
      (let m := cMerge cmp ((x :: xs).take insize) (((x :: xs).drop insize).take insize) s
      let rest := sortPass cmp insize (xs.drop (2 * insize - 1)) m.2
      (m.1 ++ rest.1, rest.2.1 + 1, rest.2.2)) := by
  show sortPassF cmp insize ((x :: xs).length) (x :: xs) s = _
  rw [List.length_cons, sortPassF]
  rw [sortPassF_fuel cmp insize xs.length (xs.drop (2 * insize - 1)) _ (by simp)]
  rfl

/-- The outer `while (1)` loop of `core_list_mergesort`, with fuel for the
unbounded iteration.  After each pass the code executes `tail->next = NULL`;
when the pass emitted no element (`nmerges == 0`, i.e. the input list was
empty) `tail` is still `NULL` and this dereferences a null pointer — modelled
as `none`.  Otherwise the pass result is returned once a pass performed at
most one merge. -/
def sortLoop (cmp : α → α → σ → Int × α × α × σ) : Nat → Nat → List α → σ → Option (List α × σ)
  | 0, _, _, _ => none
  | fuel + 1, insize, l, s =>
    let p := sortPass cmp insize l s
    if p.1.isEmpty then none
    else if p.2.1 ≤ 1 then some (p.1, p.2.2)
    else sortLoop cmp fuel (2 * insize) p.1 p.2.2

/-- `core_list_mergesort`: bottom-up iterative merge sort, starting with run
length 1.  `l.length + 1` units of fuel always suffice (proved below). -/
def core_list_mergesort (cmp : α → α → σ → Int × α × α × σ) (l : List α) (s : σ) :
    Option (List α × σ) :=
  sortLoop cmp (l.length + 1) 1 l s

/-- Lift a pure comparator to the effectful comparator type. -/
def liftCmp (c : α → α → Int) : α → α → σ → Int × α × α × σ :=
  fun a b s => (c a b, a, b, s)

/-- The boolean "take from the left run" relation induced by a comparator:
`cmp a b <= 0`. -/
def leB (c : α → α → Int) (a b : α) : Bool := decide (c a b ≤ 0)

/-- Pure counterpart of `sortPass` for an effect-free comparator; the merge
of each pair of runs is `List.merge` with ties going left. -/
def pPass (c : α → α → Int) (insize : Nat) : List α → List α × Nat
  | [] => ([], 0)
  | x :: xs =>
    let m := List.merge ((x :: xs).take insize) (((x :: xs).drop insize).take insize) (leB c)
    let rest := pPass c insize (xs.drop (2 * insize - 1))
    (m ++ rest.1, rest.2 + 1)
  termination_by l => l.length
  decreasing_by simp_arith [List.length_drop]

/-- Pure counterpart of `sortLoop`. -/
def pLoop (c : α → α → Int) : Nat → Nat → List α → Option (List α)
  | 0, _, _ => none
  | fuel + 1, insize, l =>
    let p := pPass c insize l
    if p.1.isEmpty then none
    else if p.2 ≤ 1 then some p.1
    else pLoop c fuel (2 * insize) p.1

/-- Pure counterpart of `core_list_mergesort`. -/
def pSort (c : α → α → Int) (l : List α) : Option (List α) :=
  pLoop c (l.length + 1) 1 l

theorem cMerge_lift (c : α → α → Int) (s : σ) :
    ∀ xs ys : List α, cMerge (liftCmp c) xs ys s = (List.merge xs ys (leB c), s)
  | [], ys => by rw [cMerge_nil_left]; simp [List.merge]
  | x :: xs, [] => by rw [cMerge_nil_right]; simp [List.merge]
  | x :: xs, y :: ys => by
    rw [cMerge_cons_cons, List.merge]
    by_cases h : c x y ≤ 0
    · simp only [liftCmp, h, if_pos, leB, decide_eq_true h, if_true]
      rw [cMerge_lift c s xs (y :: ys)]
      simp
    · simp only [liftCmp, h, if_neg, leB, decide_eq_false h, Bool.false_eq_true, if_false]
      rw [cMerge_lift c s (x :: xs) ys]
      simp
  termination_by xs ys => xs.length + ys.length

theorem sortPass_lift (c : α → α → Int) (insize : Nat) (s : σ) :
    ∀ l : List α, sortPass (liftCmp c) insize l s
      = ((pPass c insize l).1, (pPass c insize l).2, s)
  | [] => by rw [sortPass_nil]; simp [pPass]
  | x :: xs => by
    rw [sortPass_cons, pPass]
    rw [cMerge_lift]
    simp only []
    rw [sortPass_lift c insize s (xs.drop (2 * insize - 1))]
  termination_by l => l.length
  decreasing_by simp_arith [List.length_drop]

theorem sortLoop_lift (c : α → α → Int) (s : σ) :
    ∀ (fuel insize : Nat) (l : List α), sortLoop (liftCmp c) fuel insize l s
      = (pLoop c fuel insize l).map (fun r => (r, s))
  | 0, _, _ => by simp [sortLoop, pLoop]
  | fuel + 1, insize, l => by
    rw [sortLoop, pLoop]
    rw [sortPass_lift]
    by_cases h1 : (pPass c insize l).1.isEmpty
    · simp [h1]
    · by_cases h2 : (pPass c insize l).2 ≤ 1
      · simp [h1, h2]
      · simp only [h1, h2, if_false, Bool.false_eq_true]
        exact sortLoop_lift c s fuel (2 * insize) (pPass c insize l).1

theorem core_list_mergesort_lift (c : α → α → Int) (s : σ) (l : List α) :
    core_list_mergesort (liftCmp c) l s = (pSort c l).map (fun r => (r, s)) := by
  rw [core_list_mergesort, pSort, sortLoop_lift]

/-!
### Correctness of the bottom-up merge sort with a pure comparator
-/

/-- Sortedness with respect to the comparator-induced relation
(`cmp a b ≤ 0` for each pair in order). -/
def SortedBy (c : α → α → Int) (l : List α) : Prop :=
  List.Pairwise (fun a b => leB c a b = true) l

/-- Stability of `List.merge` with a sorted left run: any `le`-sorted
subsequence of `xs ++ ys` is still a subsequence of the merge. -/
theorem merge_stable_sublist (c : α → α → Int)
    (htr : ∀ a b d : α, leB c a b = true → leB c b d = true → leB c a d = true) :
    ∀ (xs ys cs : List α), SortedBy c xs → SortedBy c cs →
      cs <+ xs ++ ys → cs <+ List.merge xs ys (leB c)
  | [], ys, cs, _, _, hsub => by simpa using hsub
  | x :: xs, [], cs, _, _, hsub => by simpa using hsub
  | x :: xs, y :: ys, cs, hxs, hcs, hsub => by
    rw [List.merge]
    by_cases hxy : leB c x y = true
    · rw [if_pos hxy]
      rw [List.cons_append] at hsub
      cases hsub with
      | cons _ h =>
        exact (merge_stable_sublist c htr xs (y :: ys) cs (List.Pairwise.of_cons hxs) hcs h).cons x
      | cons₂ _ h =>
        rename_i cs'
        exact (merge_stable_sublist c htr xs (y :: ys) cs'
          (List.Pairwise.of_cons hxs) (List.Pairwise.of_cons hcs) h).cons₂ x
    · rw [if_neg hxy]
      obtain ⟨c₁, c₂, rfl, h₁, h₂⟩ := List.sublist_append_iff.mp hsub
      cases h₂ with
      | cons _ h₂' =>
        exact (merge_stable_sublist c htr (x :: xs) ys (c₁ ++ c₂) hxs hcs
          (List.Sublist.append h₁ h₂')).cons y
      | cons₂ _ h₂' =>
        rename_i c₂'
        have hc1 : c₁ = [] := by
          cases c₁ with
          | nil => rfl
          | cons a c₁' =>
            exfalso
            have hcs' := hcs
            rw [List.cons_append] at hcs'
            have hay : leB c a y = true :=
              List.rel_of_pairwise_cons hcs' (by simp)
            have hmem : a ∈ x :: xs := h₁.subset (List.mem_cons_self a c₁')
            rcases List.mem_cons.mp hmem with rfl | h
            · exact hxy hay
            · exact hxy (htr x a y (List.rel_of_pairwise_cons hxs h) hay)
        subst hc1
        rw [List.nil_append] at hcs ⊢
        have h₂'' : c₂' <+ (x :: xs) ++ ys := h₂'.trans (List.sublist_append_right _ _)
        exact (merge_stable_sublist c htr (x :: xs) ys c₂' hxs
          (List.Pairwise.of_cons hcs) h₂'').cons₂ y
  termination_by xs ys => xs.length + ys.length

theorem drop_cons_of_pos (x : α) (xs : List α) (h : 1 ≤ n) :
    (x :: xs).drop n = xs.drop (n - 1) := by
  cases n with
  | zero => omega
  | succ m => simp

/-- The list is a concatenation of runs of length `n` (the last possibly
shorter), each sorted — the invariant maintained between passes of the
bottom-up merge sort.  Faithful to the pass structure for `n ≥ 1`. -/
def ChunksSorted (c : α → α → Int) (n : Nat) : List α → Prop
  | [] => True
  | x :: xs => SortedBy c ((x :: xs).take n) ∧ ChunksSorted c n (xs.drop (n - 1))
  termination_by l => l.length
  decreasing_by simp_arith [List.length_drop]

theorem chunksSorted_iff (c : α → α → Int) (hn : 1 ≤ n) (l : List α) :
    ChunksSorted c n l ↔ (SortedBy c (l.take n) ∧ ChunksSorted c n (l.drop n)) := by
  cases l with
  | nil => rw [ChunksSorted]; simp [ChunksSorted, SortedBy]
  | cons x xs => rw [ChunksSorted, drop_cons_of_pos x xs hn]

theorem chunksSorted_nil (c : α → α → Int) (n : Nat) : ChunksSorted c n ([] : List α) := by
  rw [ChunksSorted]; trivial

theorem chunksSorted_one (c : α → α → Int) : ∀ l : List α, ChunksSorted c 1 l
  | [] => chunksSorted_nil c 1
  | x :: xs => by
    rw [ChunksSorted]
    refine ⟨by simp [SortedBy], ?_⟩
    simpa using chunksSorted_one c xs
  termination_by l => l.length

theorem chunksSorted_sorted (c : α → α → Int) (hn : 1 ≤ n) (l : List α)
    (hlen : l.length ≤ n) (h : ChunksSorted c n l) : SortedBy c l := by
  have h2 := (chunksSorted_iff c hn l).mp h
  rw [List.take_of_length_le hlen] at h2
  exact h2.1

theorem pPass_cons (c : α → α → Int) (insize : Nat) (h : 1 ≤ insize) (x : α) (xs : List α) :
    pPass c insize (x :: xs) =
      (List.merge ((x :: xs).take insize) (((x :: xs).drop insize).take insize) (leB c)
          ++ (pPass c insize ((x :: xs).drop (2 * insize))).1,
        (pPass c insize ((x :: xs).drop (2 * insize))).2 + 1) := by
  rw [pPass, drop_cons_of_pos (n := 2 * insize) x xs (by omega)]

theorem list_split_two_chunks (n : Nat) (l : List α) :
    l = (l.take n ++ (l.drop n).take n) ++ l.drop (2 * n) := by
  conv_lhs => rw [← List.take_append_drop n l]
  rw [List.append_assoc]
  congr 1
  conv_lhs => rw [← List.take_append_drop n (l.drop n)]
  rw [List.drop_drop]
  congr 2
  omega

theorem pPass_perm (c : α → α → Int) (insize : Nat) (h : 1 ≤ insize) :
    ∀ l : List α, (pPass c insize l).1.Perm l
  | [] => by simp [pPass]
  | x :: xs => by
    rw [pPass_cons c insize h]
    have h1 := @List.merge_perm_append _ (leB c)
      ((x :: xs).take insize) (((x :: xs).drop insize).take insize)
    have h2 : ((x :: xs).drop (2 * insize)).length < (x :: xs).length := by
      simp only [List.length_drop, List.length_cons]
      omega
    have h3 := pPass_perm c insize h ((x :: xs).drop (2 * insize))
    calc (List.merge ((x :: xs).take insize) (((x :: xs).drop insize).take insize) (leB c)
            ++ (pPass c insize ((x :: xs).drop (2 * insize))).1)
        ~ ((x :: xs).take insize ++ ((x :: xs).drop insize).take insize)
            ++ (x :: xs).drop (2 * insize) := List.Perm.append h1 h3
      _ ~ (x :: xs) := by rw [← list_split_two_chunks]
  termination_by l => l.length
  decreasing_by simp [List.length_drop]; omega

theorem pPass_length (c : α → α → Int) (insize : Nat) (h : 1 ≤ insize) (l : List α) :
    (pPass c insize l).1.length = l.length :=
  (pPass_perm c insize h l).length_eq

theorem pPass_merges_zero (c : α → α → Int) (insize : Nat) (l : List α) :
    (pPass c insize l).2 = 0 ↔ l = [] := by
  cases l with
  | nil => simp [pPass]
  | cons x xs => rw [pPass]; simp

theorem pPass_merges (c : α → α → Int) (insize : Nat) (h : 1 ≤ insize) (l : List α) :
    (pPass c insize l).2 ≤ 1 ↔ l.length ≤ 2 * insize := by
  cases l with
  | nil => simp [pPass]
  | cons x xs =>
    rw [pPass_cons c insize h]
    dsimp only
    constructor
    · intro hle
      have h0 : (pPass c insize ((x :: xs).drop (2 * insize))).2 = 0 := by omega
      have hnil := (pPass_merges_zero c insize _).mp h0
      have hlen := congrArg List.length hnil
      simp only [List.length_drop, List.length_nil, List.length_cons] at hlen
      simp only [List.length_cons]
      omega
    · intro hlen
      have hnil : (x :: xs).drop (2 * insize) = [] := by
        apply List.eq_nil_of_length_eq_zero
        simp only [List.length_drop, List.length_cons]
        simp only [List.length_cons] at hlen
        omega
      rw [hnil]
      simp [pPass]

section SortCorrect

variable {α : Type _} {c : α → α → Int}

/-- Transitivity of the comparator, as used by the claims ("total-order
comparator"). -/
def CmpTrans (c : α → α → Int) : Prop :=
  ∀ a b d : α, c a b ≤ 0 → c b d ≤ 0 → c a d ≤ 0

/-- Totality of the comparator. -/
def CmpTotal (c : α → α → Int) : Prop :=
  ∀ a b : α, c a b ≤ 0 ∨ c b a ≤ 0

theorem leB_trans (htr : CmpTrans c) :
    ∀ a b d : α, leB c a b = true → leB c b d = true → leB c a d = true := by
  intro a b d h1 h2
  simp only [leB, decide_eq_true_eq] at *
  exact htr a b d h1 h2

theorem leB_total (hto : CmpTotal c) : ∀ a b : α, leB c a b || leB c b a := by
  intro a b
  rcases hto a b with h | h <;> simp [leB, h]

theorem pPass_chunksSorted (htr : CmpTrans c) (hto : CmpTotal c)
    (insize : Nat) (h : 1 ≤ insize) :
    ∀ l : List α, ChunksSorted c insize l → ChunksSorted c (2 * insize) ((pPass c insize l).1)
  | [], _ => by simpa [pPass] using chunksSorted_nil c (2 * insize)
  | x :: xs, hcs => by
    rw [pPass_cons c insize h]
    dsimp only
    have h2 : 1 ≤ 2 * insize := by omega
    have hq := (chunksSorted_iff c h (x :: xs)).mp hcs
    have hq2 := (chunksSorted_iff c h ((x :: xs).drop insize)).mp hq.2
    have hmsorted : SortedBy c (List.merge ((x :: xs).take insize)
        (((x :: xs).drop insize).take insize) (leB c)) :=
      @List.sorted_merge _ (leB c) (leB_trans htr) (leB_total hto) _ _ hq.1 hq2.1
    have hmlen : (List.merge ((x :: xs).take insize)
        (((x :: xs).drop insize).take insize) (leB c)).length
        = Min.min (2 * insize) (x :: xs).length := by
      simp only [List.length_merge, List.length_take, List.length_drop]
      omega
    have hrest : ChunksSorted c insize ((x :: xs).drop (2 * insize)) := by
      have := hq2.2
      rwa [List.drop_drop, show insize + insize = 2 * insize by omega] at this
    have hrec := pPass_chunksSorted htr hto insize h ((x :: xs).drop (2 * insize)) hrest
    rw [chunksSorted_iff c h2]
    by_cases hlen : 2 * insize ≤ (x :: xs).length
    · have hm2 : (List.merge ((x :: xs).take insize)
          (((x :: xs).drop insize).take insize) (leB c)).length = 2 * insize := by omega
      constructor
      · rw [List.take_left' hm2]
        exact hmsorted
      · rw [List.drop_left' hm2]
        exact hrec
    · have hdnil : (x :: xs).drop (2 * insize) = [] := by
        apply List.eq_nil_of_length_eq_zero
        simp only [List.length_drop]
        omega
      rw [hdnil] at hrec ⊢
      have hpnil : (pPass c insize ([] : List α)).1 = [] := by simp [pPass]
      rw [hpnil, List.append_nil]
      have hmlen2 : (List.merge ((x :: xs).take insize)
          (((x :: xs).drop insize).take insize) (leB c)).length ≤ 2 * insize := by omega
      constructor
      · rw [List.take_of_length_le hmlen2]
        exact hmsorted
      · rw [List.drop_eq_nil_of_le hmlen2]
        exact chunksSorted_nil c (2 * insize)
  termination_by l => l.length
  decreasing_by simp [List.length_drop]; omega

theorem pPass_stable (htr : CmpTrans c) (insize : Nat) (h : 1 ≤ insize) :
    ∀ l cs : List α, ChunksSorted c insize l → SortedBy c cs → cs <+ l →
      cs <+ (pPass c insize l).1
  | [], cs, _, _, hsub => by
    simpa [pPass] using hsub
  | x :: xs, cs, hcs, hscs, hsub => by
    rw [pPass_cons c insize h]
    dsimp only
    have hq := (chunksSorted_iff c h (x :: xs)).mp hcs
    have hq2 := (chunksSorted_iff c h ((x :: xs).drop insize)).mp hq.2
    have hrest : ChunksSorted c insize ((x :: xs).drop (2 * insize)) := by
      have := hq2.2
      rwa [List.drop_drop, show insize + insize = 2 * insize by omega] at this
    have hsub2 : cs <+ ((x :: xs).take insize ++ ((x :: xs).drop insize).take insize)
        ++ (x :: xs).drop (2 * insize) := by
      rw [← list_split_two_chunks]; exact hsub
    obtain ⟨c₁, c₂, rfl, h₁, h₂⟩ := List.sublist_append_iff.mp hsub2
    have hc₁ : c₁ <+ List.merge ((x :: xs).take insize)
        (((x :: xs).drop insize).take insize) (leB c) := by
      apply merge_stable_sublist c (leB_trans htr) _ _ c₁ hq.1 _ h₁
      exact hscs.sublist (List.sublist_append_left c₁ c₂)
    have hc₂ : c₂ <+ (pPass c insize ((x :: xs).drop (2 * insize))).1 :=
      pPass_stable htr insize h ((x :: xs).drop (2 * insize)) c₂ hrest
        (hscs.sublist (List.sublist_append_right c₁ c₂)) h₂
    exact List.Sublist.append hc₁ hc₂
  termination_by l => l.length
  decreasing_by simp [List.length_drop]; omega

theorem pLoop_correct (htr : CmpTrans c) (hto : CmpTotal c) :
    ∀ (fuel insize : Nat) (l : List α), 1 ≤ insize → l ≠ [] →
      l.length ≤ insize * 2 ^ fuel → ChunksSorted c insize l →
      ∃ r, pLoop c (fuel + 1) insize l = some r ∧ r.Perm l ∧ SortedBy c r ∧
        (∀ cs, SortedBy c cs → cs <+ l → cs <+ r) := by
  intro fuel
  induction fuel with
  | zero =>
    intro insize l h1 hne hlen hcs
    refine ⟨(pPass c insize l).1, ?_, pPass_perm c insize h1 l,
      ?_, fun cs hscs hsub => pPass_stable htr insize h1 l cs hcs hscs hsub⟩
    · rw [pLoop]
      have hemp : (pPass c insize l).1.isEmpty = false := by
        rw [List.isEmpty_eq_false_iff_exists_mem]
        have := pPass_length c insize h1 l
        cases hp : (pPass c insize l).1 with
        | nil => rw [hp] at this; simp at this; exact absurd (List.eq_nil_of_length_eq_zero this.symm).symm (Ne.symm hne)
        | cons a as => exact ⟨a, by simp⟩
      rw [hemp]
      have hm : (pPass c insize l).2 ≤ 1 := by
        rw [pPass_merges c insize h1]
        simp only [Nat.pow_zero, Nat.mul_one] at hlen
        omega
      simp [hm]
    · apply chunksSorted_sorted c (n := 2 * insize) (by omega)
      · rw [pPass_length c insize h1 l]
        simp only [Nat.pow_zero, Nat.mul_one] at hlen
        omega
      · exact pPass_chunksSorted htr hto insize h1 l hcs
  | succ fuel ih =>
    intro insize l h1 hne hlen hcs
    have hemp : (pPass c insize l).1.isEmpty = false := by
      have hl := pPass_length c insize h1 l
      cases hp : (pPass c insize l).1 with
      | nil =>
        rw [hp] at hl
        simp only [List.length_nil] at hl
        exact absurd (List.eq_nil_of_length_eq_zero hl.symm) hne
      | cons a as => simp
    by_cases hsmall : l.length ≤ 2 * insize
    · refine ⟨(pPass c insize l).1, ?_, pPass_perm c insize h1 l,
        ?_, fun cs hscs hsub => pPass_stable htr insize h1 l cs hcs hscs hsub⟩
      · rw [pLoop, hemp]
        have hm : (pPass c insize l).2 ≤ 1 := (pPass_merges c insize h1 l).mpr hsmall
        simp [hm]
      · apply chunksSorted_sorted c (n := 2 * insize) (by omega)
        · rw [pPass_length c insize h1 l]; omega
        · exact pPass_chunksSorted htr hto insize h1 l hcs
    · have hm : ¬ (pPass c insize l).2 ≤ 1 := by
        rw [pPass_merges c insize h1]; omega
      have hlen2 : (pPass c insize l).1.length ≤ (2 * insize) * 2 ^ fuel := by
        rw [pPass_length c insize h1 l]
        calc l.length ≤ insize * 2 ^ (fuel + 1) := hlen
          _ = (2 * insize) * 2 ^ fuel := by ring
      have hne2 : (pPass c insize l).1 ≠ [] := by
        intro hp
        rw [hp] at hemp
        simp at hemp
      obtain ⟨r, hr, hperm, hsort, hstab⟩ := ih (2 * insize) (pPass c insize l).1
        (by omega) hne2 hlen2 (pPass_chunksSorted htr hto insize h1 l hcs)
      refine ⟨r, ?_, hperm.trans (pPass_perm c insize h1 l), hsort, ?_⟩
      · rw [pLoop, hemp]
        simp only [hm, if_false, Bool.false_eq_true]
        exact hr
      · intro cs hscs hsub
        exact hstab cs hscs (pPass_stable htr insize h1 l cs hcs hscs hsub)

theorem pSort_correct (htr : CmpTrans c) (hto : CmpTotal c) (l : List α) (hne : l ≠ []) :
    ∃ r, pSort c l = some r ∧ r.Perm l ∧ SortedBy c r ∧
      (∀ cs, SortedBy c cs → cs <+ l → cs <+ r) := by
  have hlen : l.length ≤ 1 * 2 ^ l.length := by
    have := Nat.lt_two_pow l.length
    omega
  exact pLoop_correct htr hto l.length 1 l (by omega) hne hlen (chunksSorted_one c l)

end SortCorrect

theorem sortedBy_iff_pairwise (c : α → α → Int) (l : List α) :
    SortedBy c l ↔ List.Pairwise (fun a b => c a b ≤ 0) l := by
  constructor <;> intro h <;>
    exact h.imp (by simp only [leB, decide_eq_true_eq]; exact fun h => h)

/-- C1 (amended to nonempty input lists): for every nonempty finite list and
every total-order comparator, `core_list_mergesort` returns a list that is
sorted ascending by the comparator, is a permutation of the input elements,
and is stable: any subsequence of the input that is already
`cmp · · ≤ 0`-sorted (in particular, any run of mutually equal-comparing
elements in input order) remains a subsequence of the output, so ties keep
their relative input order (left run wins ties).  The comparator state is
returned unchanged. -/
theorem core_list_mergesort_correct {α σ : Type _} (cmp : α → α → Int)
    (htr : CmpTrans cmp) (hto : CmpTotal cmp) (l : List α) (hne : l ≠ []) (s : σ) :
    ∃ r, core_list_mergesort (liftCmp cmp) l s = some (r, s) ∧
      r.Perm l ∧ List.Pairwise (fun a b => cmp a b ≤ 0) r ∧
      (∀ cs, List.Pairwise (fun a b => cmp a b ≤ 0) cs → cs <+ l → cs <+ r) := by
  obtain ⟨r, hr, hperm, hsort, hstab⟩ := pSort_correct htr hto l hne
  refine ⟨r, ?_, hperm, (sortedBy_iff_pairwise cmp r).mp hsort, ?_⟩
  · rw [core_list_mergesort_lift, hr]
    rfl
  · intro cs hcs hsub
    exact hstab cs ((sortedBy_iff_pairwise cmp cs).mpr hcs) hsub

/-- Witness for C1: the correctness theorem applied to the concrete list
`[3, 1, 2]` over `Int` with the subtraction comparator. -/
theorem core_list_mergesort_correct_witness :
    ∃ r, core_list_mergesort (liftCmp (fun a b : Int => a - b)) [3, 1, 2] () = some (r, ()) ∧
      r.Perm [3, 1, 2] ∧ List.Pairwise (fun a b : Int => a - b ≤ 0) r ∧
      (∀ cs, List.Pairwise (fun a b : Int => a - b ≤ 0) cs → cs <+ [3, 1, 2] → cs <+ r) :=
  core_list_mergesort_correct (fun a b : Int => a - b)
    (fun a b d h1 h2 => by simp only [] at h1 h2 ⊢; omega)
    (fun a b => by simp only []; omega) [3, 1, 2] (by simp) ()

/-- Counterexample to C1 as stated over *every* finite list: on the empty
list the code does not return a (sorted, empty) list at all — it crashes on
`tail->next = NULL` with `tail == NULL`, modelled as `none`. -/
theorem core_list_mergesort_nil_counterexample :
    core_list_mergesort (liftCmp (fun a b : Int => a - b)) ([] : List Int) () = none := rfl

/-- C7: on the empty list `core_list_mergesort` does *not* return the empty
list — the unconditional `tail->next = NULL` after the first pass
dereferences a null `tail` (modelled `none`), contradicting the code's own
comment "allow for nmerges==0, the empty list case".  On a single-element
list the sort returns the list unchanged without ever invoking the
comparator: the result and the threaded comparator state are returned
unchanged for *arbitrary* comparator and state, which shows no comparison
(and hence no run merge) is performed. -/
theorem core_list_mergesort_edge_cases {α σ : Type _}
    (cmp : α → α → σ → Int × α × α × σ) (x : α) (s : σ) :
    core_list_mergesort cmp ([] : List α) s = none ∧
      core_list_mergesort cmp [x] s = some ([x], s) :=
  ⟨rfl, rfl⟩

/-!
## List mutators (src/all.c lines 362-476)

A chain is a `List (LNode ListData)`: each cell carries the arena slot it
occupies (`id`) and the record it currently owns (`dat`).
-/

/-- The scan loop of `core_list_find`: index of the first node satisfying
the predicate (`none` when the chain is exhausted). -/
def findLoop (p : α → Bool) : List α → Option Nat
  | [] => none
  | d :: rest => if p d then some 0 else (findLoop p rest).map (· + 1)

/-- `core_list_find`: with a non-negative criteria `idx`, find the first
node whose record has that `idx`; otherwise find the first node whose
`data16` low byte equals the criteria's (signed) `data16` value.  Returns
the position of the matched node. -/
def core_list_find (l : List (LNode ListData)) (info : ListData) : Option Nat :=
  if 0 ≤ info.idx then
    findLoop (fun n => n.dat.idx == info.idx) l
  else
    findLoop (fun n => ((n.dat.data16 &&& 0xff : Nat) : Int) == toS16 info.data16) l

/-- The pointer-reversal loop of `core_list_reverse` (`next` is the already
reversed prefix). -/
def reverseLoop : List α → List α → List α
  | next, [] => next
  | next, x :: xs => reverseLoop (x :: next) xs

/-- `core_list_reverse`: in-place reversal of the chain. -/
def core_list_reverse (l : List α) : List α := reverseLoop [] l

theorem reverseLoop_eq (next l : List α) : reverseLoop next l = l.reverse ++ next := by
  induction l generalizing next with
  | nil => simp [reverseLoop]
  | cons x xs ih => rw [reverseLoop, ih]; simp

theorem core_list_reverse_eq (l : List α) : core_list_reverse l = l.reverse := by
  rw [core_list_reverse, reverseLoop_eq, List.append_nil]

/-- `core_list_remove` applied to the node at position `i` of the chain:
swap the record of that node with its successor's, unlink the successor and
return it (now holding the original record of position `i`) as the detached
marker.  `none` when the node does not exist or has no successor (the C code
relies on the tail sentinel to guarantee one). -/
def core_list_remove : List (LNode α) → Nat → Option (List (LNode α) × LNode α)
  | n :: m :: rest, 0 => some (⟨n.id, m.dat⟩ :: rest, ⟨m.id, n.dat⟩)
  | x :: rest, i + 1 => (core_list_remove rest i).map (fun p => (x :: p.1, p.2))
  | _, _ => none

/-- `core_list_undo_remove`: swap the records of the detached marker and the
modified node (at position `i`) back, and relink the marker immediately
after the modified node. -/
def core_list_undo_remove (removed : LNode α) : List (LNode α) → Nat → Option (List (LNode α))
  | n :: rest, 0 => some (⟨n.id, removed.dat⟩ :: ⟨removed.id, n.dat⟩ :: rest)
  | x :: rest, i + 1 => (core_list_undo_remove removed rest i).map (x :: ·)
  | [], _ => none

/-- C2: `undo_remove (remove n) n` with no intervening mutation restores the
chain exactly — not only the per-node `(idx, data16)` sequence but the full
node/record association. -/
theorem core_list_remove_undo_exact (l : List (LNode α)) (i : Nat) (h : i + 1 < l.length) :
    ∃ l' rem, core_list_remove l i = some (l', rem) ∧
      core_list_undo_remove rem l' i = some l := by
  induction i generalizing l with
  | zero =>
    match l, h with
    | n :: m :: rest, _ =>
      exact ⟨⟨n.id, m.dat⟩ :: rest, ⟨m.id, n.dat⟩, rfl, rfl⟩
  | succ i ih =>
    match l, h with
    | x :: rest, h =>
      have h' : i + 1 < rest.length := by simpa using h
      obtain ⟨l', rem, h1, h2⟩ := ih rest h'
      exact ⟨x :: l', rem, by rw [core_list_remove, h1]; rfl,
        by rw [core_list_undo_remove, h2]; rfl⟩

/-- Witness for C2 on a concrete three-node chain. -/
theorem core_list_remove_undo_exact_witness :
    ∃ l' rem, core_list_remove
        [⟨0, (10 : Int)⟩, ⟨1, 20⟩, ⟨2, 30⟩] 1 = some (l', rem) ∧
      core_list_undo_remove rem l' 1 = some [⟨0, (10 : Int)⟩, ⟨1, 20⟩, ⟨2, 30⟩] :=
  core_list_remove_undo_exact [⟨0, (10 : Int)⟩, ⟨1, 20⟩, ⟨2, 30⟩] 1 (by simp)

/-!
## Region partitioner: `core_list_insert_new` (src/all.c lines 335-360)

The two bump cursors are modelled as slot numbers; `memEnd`/`datEnd` are the
region sizes in slots (`memblock_end`, `datablock_end`).
-/

/-- Builder state: the chain built so far and the two monotone allocation
cursors. -/
structure BuildState where
  chain : List (LNode ListData)
  memCur : Nat
  datCur : Nat
  deriving DecidableEq, Repr

/-- `core_list_insert_new`: check both capacity guards first (returning with
the state untouched on failure), then take one slot from each region and
link the new node immediately after the node at position `pos`. -/
def core_list_insert_new (st : BuildState) (pos : Nat) (info : ListData)
    (memEnd datEnd : Nat) : BuildState × Option Nat :=
  if st.memCur + 1 ≥ memEnd then (st, none)
  else if st.datCur + 1 ≥ datEnd then (st, none)
  else
    ({ chain := st.chain.insertIdx (pos + 1) ⟨st.memCur, info⟩,
       memCur := st.memCur + 1, datCur := st.datCur + 1 }, some st.memCur)

/-- C10: when either region is out of capacity, `core_list_insert_new`
returns `NULL` with the builder state (chain, both cursors, all records)
exactly as it was: both guards precede every mutation. -/
theorem core_list_insert_new_atomic_failure (st : BuildState) (pos : Nat) (info : ListData)
    (memEnd datEnd : Nat) (h : st.memCur + 1 ≥ memEnd ∨ st.datCur + 1 ≥ datEnd) :
    core_list_insert_new st pos info memEnd datEnd = (st, none) := by
  rcases h with h | h
  · rw [core_list_insert_new, if_pos h]
  · rw [core_list_insert_new]
    by_cases h2 : st.memCur + 1 ≥ memEnd
    · rw [if_pos h2]
    · rw [if_neg h2, if_pos h]

/-- Witness for C10: a full node region (2 slots used, region size 3). -/
theorem core_list_insert_new_atomic_failure_witness :
    core_list_insert_new ⟨[⟨0, ⟨0, 0x8080⟩⟩], 2, 1⟩ 0 ⟨5, 5⟩ 3 9 = (⟨[⟨0, ⟨0, 0x8080⟩⟩], 2, 1⟩, none) :=
  core_list_insert_new_atomic_failure ⟨[⟨0, ⟨0, 0x8080⟩⟩], 2, 1⟩ 0 ⟨5, 5⟩ 3 9 (Or.inl (by decide))

/-!
## Comparators (src/all.c lines 120-142)
-/

/-- The `data16` normalization performed by `cmp_idx` when its
`core_results` argument is NULL: restore the low byte from the backup in
the high byte. -/
def norm_idx_data (d : ListData) : ListData :=
  ⟨d.idx, (d.data16 &&& 0xff00) ||| ((d.data16 >>> 8) &&& 0x00ff)⟩

/-- `cmp_idx` with `res == NULL` (the only way the code ever calls it
through the sort): normalize both records' `data16`, then compare by
`idx`. -/
def cmp_idx_null : ListData → ListData → Unit → Int × ListData × ListData × Unit :=
  fun a b _ => (a.idx - b.idx, norm_idx_data a, norm_idx_data b, ())

/-- Lift a record comparator (which may mutate the records) to the node
level: the node keeps its identity, its record is replaced by the
comparator's updated record. -/
def liftNodeCmp (c : ListData → ListData → σ → Int × ListData × ListData × σ) :
    LNode ListData → LNode ListData → σ → Int × LNode ListData × LNode ListData × σ :=
  fun n m s =>
    let r := c n.dat m.dat s
    (r.1, ⟨n.id, r.2.1⟩, ⟨m.id, r.2.2.1⟩, r.2.2.2)

/-!
## `core_list_init` (src/all.c lines 250-319)

`list_data_size` is `sizeof(struct list_data_s)`.  The struct itself is
declared in `coremark.h`, which is not part of `src/`; modelled from the
spec (§3): a Record is a 16-bit `idx` plus a 16-bit `data16`, 4 bytes.
-/

def list_data_size : Nat := 4

/-- Bytes per list item: 16 bytes of `list_head` budget plus the record
(`per_item = 16 + sizeof(struct list_data_s)`). -/
def list_per_item : Nat := 16 + list_data_size

/-- `size = (blksize / per_item) - 2` in `ee_u32` arithmetic. -/
def core_list_size (blksize : Nat) : Nat :=
  (blksize / list_per_item + 4294967296 - 2) % 4294967296

/-- The insertion loop of `core_list_init`: insert `k` more data items
(current loop counter `i`), each with
`data16 = (dat << 8) | dat`, `dat = ((seed ^ i) & 0xf) << 3 | (i & 0x7)`,
and the `idx` field still holding `0x7fff` from the tail-sentinel setup
(the loop never reassigns `info.idx`).  Every insertion is at the head
(`insert_point = list`). -/
def initInsertLoop (seed memEnd datEnd : Nat) : Nat → Nat → BuildState → BuildState
  | _, 0, st => st
  | i, k + 1, st =>
    let datpat := (seed ^^^ i) &&& 0xf
    let dat := (datpat <<< 3) ||| (i &&& 0x7)
    let info : ListData := ⟨0x7fff, (dat <<< 8) ||| dat⟩
    initInsertLoop seed memEnd datEnd (i + 1) k (core_list_insert_new st 0 info memEnd datEnd).1

/-- The `idx`-assignment walk of `core_list_init`, starting from
`list->next` with counter `i = 1`; stops at the last node
(`finder->next == NULL`), which keeps its record.  Note the counter is
incremented *before* the `(i & 7) << 8` contribution of the scrambled rank
is read (`i++` happens in the `pat` assignment). -/
def core_list_assign_idx (size seed : Nat) : Nat → List (LNode ListData) → List (LNode ListData)
  | _, [] => []
  | _, [t] => [t]
  | i, n :: rest =>
    let v : Int :=
      if i < size / 5 then toS16 i
      else (((0x3fff : Nat) &&& ((((i + 1) &&& 0x7) <<< 8) ||| ((i ^^^ seed) &&& 0xffff)) : Nat) : Int)
    ⟨n.id, ⟨v, n.dat.data16⟩⟩ :: core_list_assign_idx size seed (i + 1) rest

/-- The `idx`-assignment walk started from `list->next` (`finder = list->next`,
counter `i = 1`); the head sentinel keeps its record. -/
def walkFromSecond (size seed : Nat) : List (LNode ListData) → List (LNode ListData)
  | [] => []
  | h :: rest => h :: core_list_assign_idx size seed 1 rest

/-- The chain assembled by `core_list_init` before its final sort: head
sentinel (node slot 0, record `idx=0, data16=0x8080`), tail sentinel
(`idx=0x7fff, data16=0xffff`) inserted through the partitioner, `size`
attempted data-item insertions (stopping silently when capacity runs out),
then the `idx`-assignment walk from `list->next`. -/
def core_list_init_chain (blksize : Nat) (seed : Nat) : List (LNode ListData) :=
  let size := core_list_size blksize
  let st0 : BuildState := ⟨[⟨0, ⟨0, 0x8080⟩⟩], 1, 1⟩
  let st1 := (core_list_insert_new st0 0 ⟨0x7fff, 0xffff⟩ size size).1
  let st2 := initInsertLoop seed size size 0 size st1
  walkFromSecond size seed st2.chain

/-- `core_list_init`: build the chain and sort it by `idx` (`cmp_idx` with
NULL context) to fix the canonical order. -/
def core_list_init (blksize : Nat) (seed : Nat) : Option (List (LNode ListData)) :=
  (core_list_mergesort (liftNodeCmp cmp_idx_null) (core_list_init_chain blksize seed) ()).map
    Prod.fst

/-- Number of interior (non-sentinel) nodes of a built chain. -/
def interiorCount (l : List (LNode ListData)) : Nat := l.length - 2

/-!
### Effectful comparators that act purely on a preserved class of elements

`cmp_idx` (NULL context) rewrites each compared record's `data16` low byte
from its backup; on records already in that normal form it is the identity,
so the sort behaves as the pure `idx` comparison.
-/

section Congr

variable {α σ : Type _} (P : α → Prop) (cmp' : α → α → σ → Int × α × α × σ) (c : α → α → Int)

theorem cMerge_congr (hP : ∀ a b s, P a → P b → cmp' a b s = (c a b, a, b, s)) :
    ∀ (xs ys : List α) (s : σ), (∀ x ∈ xs, P x) → (∀ y ∈ ys, P y) →
      cMerge cmp' xs ys s = cMerge (liftCmp c) xs ys s
  | [], ys, s, _, _ => by rw [cMerge_nil_left, cMerge_nil_left]
  | x :: xs, [], s, _, _ => by rw [cMerge_nil_right, cMerge_nil_right]
  | x :: xs, y :: ys, s, hx, hy => by
    rw [cMerge_cons_cons, cMerge_cons_cons]
    rw [hP x y s (hx x (List.mem_cons_self x xs)) (hy y (List.mem_cons_self y ys))]
    dsimp only [liftCmp]
    by_cases hc : c x y ≤ 0
    · simp only [hc, if_pos]
      rw [cMerge_congr hP xs (y :: ys) s
        (fun z hz => hx z (List.mem_cons_of_mem x hz)) hy]
    · simp only [hc, if_neg, if_false]
      rw [cMerge_congr hP (x :: xs) ys s hx
        (fun z hz => hy z (List.mem_cons_of_mem y hz))]
  termination_by xs ys => xs.length + ys.length

theorem sortPass_congr (hP : ∀ a b s, P a → P b → cmp' a b s = (c a b, a, b, s))
    (insize : Nat) :
    ∀ (l : List α) (s : σ), (∀ x ∈ l, P x) →
      sortPass cmp' insize l s = sortPass (liftCmp c) insize l s
  | [], s, _ => by rw [sortPass_nil, sortPass_nil]
  | x :: xs, s, hl => by
    rw [sortPass_cons, sortPass_cons]
    dsimp only
    rw [cMerge_congr P cmp' c hP _ _ s
      (fun z hz => hl z ((List.take_sublist insize (x :: xs)).subset hz))
      (fun z hz => hl z (((List.take_sublist insize _).trans
        (List.drop_sublist insize (x :: xs))).subset hz))]
    rw [sortPass_congr hP insize (xs.drop (2 * insize - 1)) _
      (fun z hz => hl z (List.mem_cons_of_mem x ((List.drop_sublist _ xs).subset hz)))]
  termination_by l => l.length
  decreasing_by simp [List.length_drop]; omega

theorem sortLoop_congr (hP : ∀ a b s, P a → P b → cmp' a b s = (c a b, a, b, s)) :
    ∀ (fuel insize : Nat) (l : List α) (s : σ), 1 ≤ insize → (∀ x ∈ l, P x) →
      sortLoop cmp' fuel insize l s = sortLoop (liftCmp c) fuel insize l s := by
  intro fuel
  induction fuel with
  | zero => intro insize l s h1 hl; rfl
  | succ fuel ih =>
    intro insize l s h1 hl
    rw [sortLoop, sortLoop]
    rw [sortPass_congr P cmp' c hP insize l s hl]
    by_cases he : (sortPass (liftCmp c) insize l s).1.isEmpty
    · simp [he]
    · simp only [he, Bool.false_eq_true, if_false]
      by_cases hm : (sortPass (liftCmp c) insize l s).2.1 ≤ 1
      · simp [hm]
      · simp only [hm, if_false]
        apply ih (2 * insize) _ _ (by omega)
        intro z hz
        rw [sortPass_lift] at hz
        dsimp only at hz
        exact hl z ((pPass_perm c insize h1 l).subset hz)

theorem core_list_mergesort_congr
    (hP : ∀ a b s, P a → P b → cmp' a b s = (c a b, a, b, s))
    (l : List α) (s : σ) (hl : ∀ x ∈ l, P x) :
    core_list_mergesort cmp' l s = core_list_mergesort (liftCmp c) l s := by
  rw [core_list_mergesort, core_list_mergesort]
  exact sortLoop_congr P cmp' c hP (l.length + 1) 1 l s (by omega) hl

end Congr

/-!
### Round-trip: sorting by `idx` is reversal-invariant only without rank ties (C8)
-/

/-- A record in normal form: `cmp_idx`'s NULL-context normalization leaves
it unchanged (low byte of `data16` equals the backup in the high byte). -/
def NormRec (n : LNode ListData) : Prop := norm_idx_data n.dat = n.dat

/-- The pure comparison underlying `cmp_idx`. -/
def cmpIdxPure (n m : LNode ListData) : Int := n.dat.idx - m.dat.idx

theorem cmp_idx_null_pure_on_norm :
    ∀ (a b : LNode ListData) (s : Unit), NormRec a → NormRec b →
      liftNodeCmp cmp_idx_null a b s = (cmpIdxPure a b, a, b, s) := by
  intro a b s ha hb
  dsimp only [liftNodeCmp, cmp_idx_null, cmpIdxPure]
  rw [NormRec] at ha hb
  rw [ha, hb]

/-- `data16` values of the packed shape `(dat << 8) | dat` produced by the
builder are fixed by the normalization (checked over the finite range of
`dat = (a << 3) | b`, `a < 16`, `b < 8`). -/
theorem norm_data_packed : ∀ a < 16, ∀ b < 8,
    ((((((a <<< 3) ||| b) <<< 8) ||| ((a <<< 3) ||| b)) &&& 0xff00)
      ||| (((((a <<< 3) ||| b) <<< 8) ||| ((a <<< 3) ||| b)) >>> 8 &&& 0xff))
      = (((a <<< 3) ||| b) <<< 8) ||| ((a <<< 3) ||| b) := by decide

theorem mem_insertIdx_cases {a b : α} {n : Nat} {l : List α}
    (h : a ∈ l.insertIdx n b) : a = b ∨ a ∈ l := by
  by_cases hle : n ≤ l.length
  · exact (List.mem_insertIdx hle).mp h
  · rw [List.insertIdx_of_length_lt l b n (by omega)] at h
    exact Or.inr h

theorem insert_new_mem {st : BuildState} {pos : Nat} {info : ListData} {memEnd datEnd : Nat}
    {x : LNode ListData}
    (h : x ∈ (core_list_insert_new st pos info memEnd datEnd).1.chain) :
    x.dat = info ∨ x ∈ st.chain := by
  rw [core_list_insert_new] at h
  by_cases h1 : st.memCur + 1 ≥ memEnd
  · rw [if_pos h1] at h; exact Or.inr h
  · rw [if_neg h1] at h
    by_cases h2 : st.datCur + 1 ≥ datEnd
    · rw [if_pos h2] at h; exact Or.inr h
    · rw [if_neg h2] at h
      rcases mem_insertIdx_cases h with rfl | h
      · exact Or.inl rfl
      · exact Or.inr h

/-- Every record inserted by the builder's insertion loop has the packed
`(dat << 8) | dat` shape (with the tail-sentinel `idx` leftover). -/
theorem initInsertLoop_mem (seed memEnd datEnd : Nat) :
    ∀ (k i : Nat) (st : BuildState) (x : LNode ListData),
      x ∈ (initInsertLoop seed memEnd datEnd i k st).chain →
      (∃ d, d < 128 ∧ x.dat = ⟨0x7fff, (d <<< 8) ||| d⟩) ∨ x ∈ st.chain := by
  intro k
  induction k with
  | zero => intro i st x h; exact Or.inr h
  | succ k ih =>
    intro i st x h
    rw [initInsertLoop] at h
    rcases ih (i + 1) _ x h with h2 | h2
    · exact Or.inl h2
    · rcases insert_new_mem h2 with h3 | h3
      · refine Or.inl ⟨(((seed ^^^ i) &&& 0xf) <<< 3) ||| (i &&& 0x7), ?_, h3⟩
        have h1 : (seed ^^^ i) &&& 0xf ≤ 0xf := Nat.and_le_right
        have h4 : i &&& 0x7 ≤ 0x7 := Nat.and_le_right
        have h5 : ((seed ^^^ i) &&& 0xf) <<< 3 < 2 ^ 7 := by
          rw [Nat.shiftLeft_eq]
          omega
        exact Nat.or_lt_two_pow (n := 7) h5 (by omega)
      · exact Or.inr h3

/-- The normalization fixes every record of the packed shape. -/
theorem normRec_packed (x : LNode ListData) (d : Nat) (hd : d < 128)
    (h : x.dat = ⟨0x7fff, (d <<< 8) ||| d⟩) : NormRec x := by
  have key : ∀ e < 128, norm_idx_data ⟨0x7fff, (e <<< 8) ||| e⟩ = ⟨0x7fff, (e <<< 8) ||| e⟩ := by
    decide
  rw [NormRec, h]
  exact key d hd

/-- The `idx`-assignment walk only rewrites `idx` fields: memberships map
back to nodes of the input with the same `data16`. -/
theorem assign_idx_mem (size seed : Nat) :
    ∀ (i : Nat) (l : List (LNode ListData)) (x : LNode ListData),
      x ∈ core_list_assign_idx size seed i l → ∃ y ∈ l, x.dat.data16 = y.dat.data16 := by
  intro i l
  induction l generalizing i with
  | nil => intro x h; rw [core_list_assign_idx] at h; cases h
  | cons n rest ih =>
    intro x h
    cases rest with
    | nil =>
      rw [core_list_assign_idx] at h
      simp only [List.mem_singleton] at h
      exact ⟨n, List.mem_cons_self n [], by rw [h]⟩
    | cons m rest' =>
      rw [core_list_assign_idx] at h
      case x_2 => simp
      rcases List.mem_cons.mp h with rfl | h2
      · exact ⟨n, List.mem_cons_self n _, rfl⟩
      · obtain ⟨y, hy, hdat⟩ := ih (i + 1) x h2
        exact ⟨y, List.mem_cons_of_mem n hy, hdat⟩

/-- Every node of the chain assembled by `core_list_init` (before its final
sort) carries a record in normal form. -/
theorem init_chain_normRec (blksize seed : Nat) :
    ∀ x ∈ core_list_init_chain blksize seed, NormRec x := by
  intro x hx
  rw [core_list_init_chain] at hx
  set size := core_list_size blksize with hsize
  set st0 : BuildState := ⟨[⟨0, ⟨0, 0x8080⟩⟩], 1, 1⟩ with hst0
  set st1 := (core_list_insert_new st0 0 ⟨0x7fff, 0xffff⟩ size size).1 with hst1
  set st2 := initInsertLoop seed size size 0 size st1 with hst2
  have base_mem : ∀ y : LNode ListData, y ∈ st2.chain → NormRec y := by
    intro y hy
    rcases initInsertLoop_mem seed size size size 0 st1 y hy with ⟨d, hd, hdat⟩ | hy2
    · exact normRec_packed y d hd hdat
    · rcases @insert_new_mem st0 _ _ _ _ _ hy2 with h3 | h3
      · rw [NormRec, h3]; decide
      · rw [hst0] at h3
        simp only [BuildState.chain] at h3
        simp only [List.mem_singleton] at h3
        rw [NormRec, h3]; decide
  have data_norm : ∀ y : LNode ListData, (∃ z : LNode ListData, z ∈ st2.chain ∧
      y.dat.data16 = z.dat.data16) → NormRec y := by
    intro y ⟨z, hz, hdz⟩
    have hzn := base_mem z hz
    rw [NormRec, norm_idx_data] at hzn
    rw [NormRec, norm_idx_data]
    have hy16 : (y.dat.data16 &&& 0xff00) ||| (y.dat.data16 >>> 8 &&& 0xff) = y.dat.data16 := by
      rw [hdz]
      exact congrArg ListData.data16 hzn
    rw [hy16]
  cases hc : st2.chain with
  | nil => rw [hc] at hx; rw [walkFromSecond] at hx; cases hx
  | cons h rest =>
    rw [hc] at hx
    rw [walkFromSecond] at hx
    rcases List.mem_cons.mp hx with rfl | h2
    · exact base_mem x (by rw [hc]; exact List.mem_cons_self _ _)
    · obtain ⟨y, hy, hdat⟩ := assign_idx_mem size seed 1 rest x h2
      exact data_norm x ⟨y, by rw [hc]; exact List.mem_cons_of_mem _ hy, hdat⟩

theorem cmpIdxPure_trans : CmpTrans cmpIdxPure := by
  intro a b d h1 h2
  rw [cmpIdxPure] at *
  omega

theorem cmpIdxPure_total : CmpTotal cmpIdxPure := by
  intro a b
  rw [cmpIdxPure, cmpIdxPure]
  omega

theorem insert_new_length_ge (st : BuildState) (pos : Nat) (info : ListData)
    (memEnd datEnd : Nat) :
    st.chain.length ≤ (core_list_insert_new st pos info memEnd datEnd).1.chain.length := by
  rw [core_list_insert_new]
  by_cases h1 : st.memCur + 1 ≥ memEnd
  · rw [if_pos h1]
  · rw [if_neg h1]
    by_cases h2 : st.datCur + 1 ≥ datEnd
    · rw [if_pos h2]
    · rw [if_neg h2]
      by_cases h3 : pos + 1 ≤ st.chain.length
      · simp [List.length_insertIdx _ _ h3]
      · rw [List.insertIdx_of_length_lt _ _ _ (by omega)]

theorem initInsertLoop_length_ge (seed memEnd datEnd : Nat) :
    ∀ (k i : Nat) (st : BuildState),
      st.chain.length ≤ (initInsertLoop seed memEnd datEnd i k st).chain.length := by
  intro k
  induction k with
  | zero => intro i st; rw [initInsertLoop]
  | succ k ih =>
    intro i st
    rw [initInsertLoop]
    exact (insert_new_length_ge st 0 _ memEnd datEnd).trans (ih (i + 1) _)

theorem assign_idx_length (size seed : Nat) :
    ∀ (i : Nat) (l : List (LNode ListData)),
      (core_list_assign_idx size seed i l).length = l.length := by
  intro i l
  induction l generalizing i with
  | nil => rw [core_list_assign_idx]
  | cons n rest ih =>
    cases rest with
    | nil => rw [core_list_assign_idx]
    | cons m rest' =>
      rw [core_list_assign_idx]
      case x_2 => simp
      simp only [List.length_cons]
      rw [ih (i + 1)]
      simp

theorem core_list_init_chain_length (blksize seed : Nat) :
    core_list_init_chain blksize seed
      = walkFromSecond (core_list_size blksize) seed
          (initInsertLoop seed (core_list_size blksize) (core_list_size blksize) 0
            (core_list_size blksize)
            (core_list_insert_new ⟨[⟨0, ⟨0, 0x8080⟩⟩], 1, 1⟩ 0 ⟨0x7fff, 0xffff⟩
              (core_list_size blksize) (core_list_size blksize)).1).chain := by
  rw [core_list_init_chain]

theorem core_list_init_chain_ne_nil (blksize seed : Nat) :
    core_list_init_chain blksize seed ≠ [] := by
  rw [core_list_init_chain_length]
  have h1 : (1 : Nat) ≤ (core_list_insert_new ⟨[⟨0, ⟨0, 0x8080⟩⟩], 1, 1⟩ 0 ⟨0x7fff, 0xffff⟩
      (core_list_size blksize) (core_list_size blksize)).1.chain.length := by
    have := insert_new_length_ge ⟨[⟨0, ⟨0, 0x8080⟩⟩], 1, 1⟩ 0 ⟨0x7fff, 0xffff⟩
      (core_list_size blksize) (core_list_size blksize)
    simpa using this
  have h2 := initInsertLoop_length_ge seed (core_list_size blksize) (core_list_size blksize)
    (core_list_size blksize) 0 (core_list_insert_new ⟨[⟨0, ⟨0, 0x8080⟩⟩], 1, 1⟩ 0
      ⟨0x7fff, 0xffff⟩ (core_list_size blksize) (core_list_size blksize)).1
  cases hc : (initInsertLoop seed (core_list_size blksize) (core_list_size blksize) 0
      (core_list_size blksize)
      (core_list_insert_new ⟨[⟨0, ⟨0, 0x8080⟩⟩], 1, 1⟩ 0 ⟨0x7fff, 0xffff⟩
        (core_list_size blksize) (core_list_size blksize)).1).chain with
  | nil =>
    exfalso
    rw [hc] at h2
    simp only [List.length_nil] at h2
    omega
  | cons h rest =>
    rw [walkFromSecond]
    simp

/-- Characterization of a successful `core_list_init`: the produced list is
the pure stable `idx`-sort of the assembled chain — a permutation of it,
sorted, with every record in normal form. -/
theorem core_list_init_some (blksize seed : Nat) (l : List (LNode ListData))
    (hinit : core_list_init blksize seed = some l) :
    l.Perm (core_list_init_chain blksize seed) ∧ (∀ x ∈ l, NormRec x) ∧
      SortedBy cmpIdxPure l ∧ l ≠ [] := by
  rw [core_list_init] at hinit
  rw [core_list_mergesort_congr NormRec (liftNodeCmp cmp_idx_null) cmpIdxPure
    cmp_idx_null_pure_on_norm _ () (init_chain_normRec blksize seed)] at hinit
  rw [core_list_mergesort_lift] at hinit
  obtain ⟨r, hr, hperm, hsort, _⟩ := pSort_correct cmpIdxPure_trans cmpIdxPure_total
    (core_list_init_chain blksize seed) (core_list_init_chain_ne_nil blksize seed)
  rw [hr] at hinit
  simp only [Option.map_map, Option.map_some] at hinit
  have hlr : l = r := by
    cases hinit
    rfl
  subst hlr
  refine ⟨hperm, ?_, (sortedBy_iff_pairwise _ _).mpr ((sortedBy_iff_pairwise _ _).mp hsort), ?_⟩
  · intro x hx
    exact init_chain_normRec blksize seed x (hperm.subset hx)
  · intro hnil
    apply core_list_init_chain_ne_nil blksize seed
    have hlen := hperm.length_eq
    rw [hnil] at hlen
    simp only [List.length_nil] at hlen
    exact List.eq_nil_of_length_eq_zero hlen.symm

/-- Two sorted permutations of one another agree when comparison-equivalent
members are equal. -/
theorem eq_of_perm_of_sortedBy (c : β → β → Int) :
    ∀ (l₁ l₂ : List β), l₁.Perm l₂ → SortedBy c l₁ → SortedBy c l₂ →
      (∀ a b, a ∈ l₁ → b ∈ l₁ → c a b ≤ 0 → c b a ≤ 0 → a = b) → l₁ = l₂ := by
  intro l₁
  induction l₁ with
  | nil => intro l₂ hp _ _ _; exact (hp.nil_eq).symm ▸ rfl
  | cons x xs ih =>
    intro l₂ hp h₁ h₂ hanti
    cases l₂ with
    | nil => exact absurd hp.symm (by simp)
    | cons y ys =>
      by_cases hxy : x = y
      · subst hxy
        have hp' : xs.Perm ys := hp.cons_inv
        have := ih ys hp' (List.Pairwise.of_cons h₁) (List.Pairwise.of_cons h₂)
          (fun a b ha hb => hanti a b (List.mem_cons_of_mem x ha) (List.mem_cons_of_mem x hb))
        rw [this]
      · exfalso
        have hx2 : x ∈ y :: ys := hp.subset (List.mem_cons_self x xs)
        have hy1 : y ∈ x :: xs := hp.symm.subset (List.mem_cons_self y ys)
        have hxys : x ∈ ys := by
          rcases List.mem_cons.mp hx2 with h | h
          · exact absurd h hxy
          · exact h
        have hyxs : y ∈ xs := by
          rcases List.mem_cons.mp hy1 with h | h
          · exact absurd h.symm hxy
          · exact h
        have hle1 : leB c x y = true := List.rel_of_pairwise_cons h₁ hyxs
        have hle2 : leB c y x = true := List.rel_of_pairwise_cons h₂ hxys
        simp only [leB, decide_eq_true_eq] at hle1 hle2
        exact hxy (hanti x y (List.mem_cons_self x xs) hy1 hle1 hle2)

/-- C8 (amended): for a list built by `core_list_init` *whose rank values
are pairwise distinct* (true of the reference builds, e.g. 2000-byte region
with seed 0), sorting by `idx` after a reversal produces exactly the same
chain as sorting directly — in particular the same per-node
`(idx, data16)` sequence.  (Rank collisions are possible for some
`(blksize, seed)` pairs, and then the two stable sorts order the tied
nodes differently; see the counterexample.) -/
theorem core_list_sort_reverse_invariant (blksize seed : Nat) (l : List (LNode ListData))
    (hinit : core_list_init blksize seed = some l)
    (hdistinct : (l.map (fun n => n.dat.idx)).Nodup) :
    ∃ r, core_list_mergesort (liftNodeCmp cmp_idx_null) (core_list_reverse l) () = some (r, ())
      ∧ core_list_mergesort (liftNodeCmp cmp_idx_null) l () = some (r, ()) := by
  obtain ⟨hperm0, hnorm, _, hne⟩ := core_list_init_some blksize seed l hinit
  have hrevne : core_list_reverse l ≠ [] := by
    rw [core_list_reverse_eq]
    simpa using hne
  have hnormrev : ∀ x ∈ core_list_reverse l, NormRec x := by
    intro x hx
    rw [core_list_reverse_eq, List.mem_reverse] at hx
    exact hnorm x hx
  obtain ⟨r1, hr1, hperm1, hsort1, _⟩ := pSort_correct cmpIdxPure_trans cmpIdxPure_total
    (core_list_reverse l) hrevne
  obtain ⟨r2, hr2, hperm2, hsort2, _⟩ := pSort_correct cmpIdxPure_trans cmpIdxPure_total l hne
  have hperm12 : r1.Perm r2 := by
    refine hperm1.trans (.trans ?_ hperm2.symm)
    rw [core_list_reverse_eq]
    exact List.reverse_perm l
  have hanti : ∀ a b, a ∈ r1 → b ∈ r1 → cmpIdxPure a b ≤ 0 → cmpIdxPure b a ≤ 0 → a = b := by
    intro a b ha hb h1 h2
    have hal : a ∈ l := by
      have := hperm1.subset ha
      rwa [core_list_reverse_eq, List.mem_reverse] at this
    have hbl : b ∈ l := by
      have := hperm1.subset hb
      rwa [core_list_reverse_eq, List.mem_reverse] at this
    have hidx : a.dat.idx = b.dat.idx := by
      rw [cmpIdxPure] at h1 h2
      omega
    exact List.inj_on_of_nodup_map hdistinct hal hbl hidx
  have h12 : r1 = r2 := eq_of_perm_of_sortedBy cmpIdxPure r1 r2 hperm12 hsort1 hsort2 hanti
  refine ⟨r1, ?_, ?_⟩
  · rw [core_list_mergesort_congr NormRec (liftNodeCmp cmp_idx_null) cmpIdxPure
      cmp_idx_null_pure_on_norm _ () hnormrev]
    rw [core_list_mergesort_lift, hr1]
    rfl
  · rw [core_list_mergesort_congr NormRec (liftNodeCmp cmp_idx_null) cmpIdxPure
      cmp_idx_null_pure_on_norm _ () hnorm]
    rw [core_list_mergesort_lift, hr2, h12]
    rfl

/-- Counterexample to C8 as stated: with a 400-byte region and seed 15, the
builder gives an interior node the rank 0 — the same rank as the head
sentinel but with different `data16` — and the reversal flips which of the
two tied nodes the stable sort emits first, so the two `(idx, data16)`
sequences differ. -/
theorem core_list_sort_reverse_counterexample :
    (core_list_init 400 15).bind
        (fun l => (core_list_mergesort (liftNodeCmp cmp_idx_null) (core_list_reverse l) ()).map
          (fun p => p.1.map (fun n => (n.dat.idx, n.dat.data16))))
      ≠ (core_list_init 400 15).bind
        (fun l => (core_list_mergesort (liftNodeCmp cmp_idx_null) l ()).map
          (fun p => p.1.map (fun n => (n.dat.idx, n.dat.data16)))) := by
  decide

/-- Witness for C8 (amended) on the build with a 400-byte region and seed 0,
whose ranks are pairwise distinct. -/
theorem core_list_sort_reverse_invariant_witness :
    ∃ l r, core_list_init 400 0 = some l ∧
      core_list_mergesort (liftNodeCmp cmp_idx_null) (core_list_reverse l) () = some (r, ()) ∧
      core_list_mergesort (liftNodeCmp cmp_idx_null) l () = some (r, ()) := by
  cases hinit : core_list_init 400 0 with
  | none => exact absurd hinit (by decide)
  | some l =>
    have hd0 : (((core_list_init 400 0).getD []).map (fun n => n.dat.idx)).Nodup := by decide
    rw [hinit] at hd0
    obtain ⟨r, h1, h2⟩ := core_list_sort_reverse_invariant 400 0 l hinit (by simpa using hd0)
    exact ⟨l, r, rfl, h1, h2⟩

/-!
### Capacity: how many interior nodes `core_list_init` really builds (C5)
-/

theorem walkFromSecond_length (size seed : Nat) (l : List (LNode ListData)) :
    (walkFromSecond size seed l).length = l.length := by
  cases l with
  | nil => rw [walkFromSecond]
  | cons h rest =>
    rw [walkFromSecond]
    simp [assign_idx_length]

/-- Exact chain growth of the builder's insertion loop: starting with equal
cursors at `m`, an attempt succeeds exactly while `m + 1 < size`, so `k`
attempts add `min k (size - 1 - m)` nodes. -/
theorem initInsertLoop_exact (seed size : Nat) :
    ∀ (k i : Nat) (st : BuildState), st.memCur = st.datCur → 1 ≤ st.chain.length →
      (initInsertLoop seed size size i k st).chain.length
        = st.chain.length + min k (size - 1 - st.memCur) := by
  intro k
  induction k with
  | zero => intro i st _ _; rw [initInsertLoop]; simp
  | succ k ih =>
    intro i st hcur hlen
    rw [initInsertLoop]
    by_cases hcap : st.memCur + 1 ≥ size
    · rw [core_list_insert_new_atomic_failure st 0 _ size size (Or.inl hcap)]
      rw [ih (i + 1) st hcur hlen]
      have : size - 1 - st.memCur = 0 := by omega
      rw [this]
      simp
    · have hcap2 : ¬ st.datCur + 1 ≥ size := by omega
      rw [core_list_insert_new, if_neg hcap, if_neg hcap2]
      rw [ih (i + 1) _ (by rw [hcur]) (by
        simp only [List.length_insertIdx _ _ (by omega : 0 + 1 ≤ st.chain.length)]
        omega)]
      simp only [List.length_insertIdx _ _ (by omega : 0 + 1 ≤ st.chain.length)]
      have hm : size - 1 - (st.memCur + 1) = size - 1 - st.memCur - 1 := by omega
      rw [hm]
      omega

/-- C5 (amended): the size formula is as claimed, but the built list has
`size − 3` interior nodes, not `size`: the head and tail sentinels take two
slots, and the guard `(*memblock + 1) >= memblock_end` in
`core_list_insert_new` refuses to allocate the last slot of each region. -/
theorem core_list_init_capacity (blksize seed : Nat) (l : List (LNode ListData))
    (hinit : core_list_init blksize seed = some l)
    (hb : blksize < 4294967296) (hq : 5 ≤ blksize / 20) :
    core_list_size blksize = blksize / (16 + list_data_size) - 2 ∧
      interiorCount l = core_list_size blksize - 3 := by
  have hsizeval : core_list_size blksize = blksize / 20 - 2 := by
    rw [core_list_size, list_per_item, list_data_size]
    have : blksize / 20 < 4294967296 := by omega
    omega
  have hsize3 : 3 ≤ core_list_size blksize := by omega
  constructor
  · rw [hsizeval, list_data_size]
  · obtain ⟨hperm, _, _, _⟩ := core_list_init_some blksize seed l hinit
    rw [interiorCount, hperm.length_eq]
    rw [core_list_init_chain_length, walkFromSecond_length]
    have hst1 : (core_list_insert_new ⟨[⟨0, ⟨0, 0x8080⟩⟩], 1, 1⟩ 0 ⟨0x7fff, 0xffff⟩
        (core_list_size blksize) (core_list_size blksize))
        = (⟨[⟨0, ⟨0, 0x8080⟩⟩].insertIdx 1 ⟨1, ⟨0x7fff, 0xffff⟩⟩, 2, 2⟩, some 1) := by
      rw [core_list_insert_new]
      rw [if_neg (by simp only [] ; omega), if_neg (by simp only [] ; omega)]
    rw [hst1]
    rw [initInsertLoop_exact seed (core_list_size blksize) (core_list_size blksize) 0
      ⟨[⟨0, ⟨0, 0x8080⟩⟩].insertIdx 1 ⟨1, ⟨0x7fff, 0xffff⟩⟩, 2, 2⟩ rfl (by simp)]
    simp only [List.length_insertIdx _ _ (by simp : (1 : Nat) ≤ [(⟨0, ⟨0, 0x8080⟩⟩ : LNode ListData)].length)]
    simp only [List.length_singleton]
    omega

set_option maxRecDepth 40000 in
/-- Counterexample to C5 as stated: the reference 2000-byte region yields
`size = 98` but only 95 interior nodes. -/
theorem core_list_init_capacity_counterexample :
    core_list_size 2000 = 98 ∧ (core_list_init 2000 0).map interiorCount = some 95 := by
  constructor
  · rfl
  · rfl

set_option maxRecDepth 40000 in
/-- Witness for C5 (amended) on the reference 2000-byte region. -/
theorem core_list_init_capacity_witness :
    ∃ l, core_list_init 2000 0 = some l ∧
      (core_list_size 2000 = 2000 / (16 + list_data_size) - 2 ∧
        interiorCount l = core_list_size 2000 - 3) := by
  cases hinit : core_list_init 2000 0 with
  | none => exact absurd hinit (by decide)
  | some l =>
    exact ⟨l, rfl, core_list_init_capacity 2000 0 l hinit (by decide) (by decide)⟩

/-!
### The rank-assignment walk (C4)
-/

/-- C4 (amended): the node reached with walk counter `i + k` (i.e. position
`k` of the walked segment, except the final node) receives rank `i + k`
while `i + k < size/5` — so, for the walk as started by `core_list_init`
(`i = 1`), only the first `size/5 − 1` interior nodes get the ordered ranks
`1, 2, …` — and otherwise the scrambled rank
`0x3fff & (((i + k + 1) & 7) << 8 | ((i + k) ^ seed))`: the counter has
already been incremented when its low bits enter the high byte.  Node
identity and `data16` are untouched. -/
theorem core_list_assign_idx_spec (size seed : Nat) :
    ∀ (i : Nat) (l : List (LNode ListData)) (k : Nat), k + 1 < l.length →
      (core_list_assign_idx size seed i l)[k]? =
        (l[k]?).map (fun n => ⟨n.id, ⟨(if i + k < size / 5 then toS16 (i + k)
          else (((0x3fff : Nat) &&&
            ((((i + k + 1) &&& 0x7) <<< 8) ||| (((i + k) ^^^ seed) &&& 0xffff)) : Nat) : Int)),
          n.dat.data16⟩⟩) := by
  intro i l
  induction l generalizing i with
  | nil => intro k hk; simp at hk
  | cons n rest ih =>
    intro k hk
    cases rest with
    | nil => simp at hk
    | cons m rest' =>
      rw [core_list_assign_idx]
      case x_2 => simp
      cases k with
      | zero => simp
      | succ k =>
        simp only [List.getElem?_cons_succ]
        have hk' : k + 1 < (m :: rest').length := by
          simp only [List.length_cons] at hk ⊢
          omega
        rw [ih (i + 1) k hk']
        have harith1 : i + 1 + k = i + (k + 1) := by omega
        rw [harith1]

/-- Counterexample to C4 as stated: `size = 10`, `seed = 0`, walking four
nodes from counter 1.  The node with counter 2 is within the claimed
"first `size/5` interior nodes" (`size/5 = 2`), yet it does not get the
ordered rank 2 — nor does it get the claimed scrambled value
`0x3fff & ((2 & 7) << 8 | (2 ^ 0)) = 0x202`; it gets `0x302` (high byte
from the already-incremented counter 3). -/
theorem core_list_assign_idx_counterexample :
    (core_list_assign_idx 10 0 1 [⟨1, ⟨0x7fff, 0⟩⟩, ⟨2, ⟨0x7fff, 0⟩⟩, ⟨3, ⟨0x7fff, 0⟩⟩,
        ⟨4, ⟨0x7fff, 0⟩⟩]).map (fun n => n.dat.idx) = [1, 0x302, 0x403, 0x7fff]
      ∧ (0x302 : Int) ≠ 2 ∧ (0x302 : Int) ≠ 0x202 := by
  decide

/-- Witness for C4 (amended): the position-1 node of that walk (counter 2). -/
theorem core_list_assign_idx_spec_witness :
    (core_list_assign_idx 10 0 1 [⟨1, ⟨0x7fff, 0⟩⟩, ⟨2, ⟨0x7fff, 0⟩⟩, ⟨3, ⟨0x7fff, 0⟩⟩,
        ⟨4, ⟨0x7fff, 0⟩⟩])[1]? =
      (([⟨1, ⟨0x7fff, 0⟩⟩, ⟨2, ⟨0x7fff, 0⟩⟩, ⟨3, ⟨0x7fff, 0⟩⟩,
        ⟨4, ⟨0x7fff, 0⟩⟩] : List (LNode ListData))[1]?).map
        (fun n => ⟨n.id, ⟨(if 1 + 1 < 10 / 5 then toS16 (1 + 1)
          else (((0x3fff : Nat) &&&
            ((((1 + 1 + 1) &&& 0x7) <<< 8) ||| (((1 + 1) ^^^ 0) &&& 0xffff)) : Nat) : Int)),
          n.dat.data16⟩⟩) :=
  core_list_assign_idx_spec 10 0 1 _ 1 (by decide)

/-!
### `core_list_find` semantics (C6)
-/

/-- The per-node match used by `core_list_find`, split by criteria mode. -/
def find_pred (info : ListData) : LNode ListData → Bool :=
  if 0 ≤ info.idx then fun n => n.dat.idx == info.idx
  else fun n => ((n.dat.data16 &&& 0xff : Nat) : Int) == toS16 info.data16

theorem core_list_find_eq (l : List (LNode ListData)) (info : ListData) :
    core_list_find l info = findLoop (find_pred info) l := by
  rw [core_list_find, find_pred]
  by_cases h : 0 ≤ info.idx
  · rw [if_pos h, if_pos h]
  · rw [if_neg h, if_neg h]

/-- Number of loop iterations (node visits) the scan performs. -/
def findLoopSteps (p : α → Bool) : List α → Nat
  | [] => 0
  | d :: rest => if p d then 1 else findLoopSteps p rest + 1

theorem findLoop_some_spec (p : α → Bool) :
    ∀ (l : List α) (k : Nat), findLoop p l = some k →
      ∃ n, l[k]? = some n ∧ p n = true ∧ ∀ j m, j < k → l[j]? = some m → p m = false := by
  intro l
  induction l with
  | nil => intro k h; rw [findLoop] at h; cases h
  | cons d rest ih =>
    intro k h
    rw [findLoop] at h
    by_cases hp : p d
    · rw [if_pos hp] at h
      cases h
      exact ⟨d, by simp, hp, fun j m hj => by omega⟩
    · rw [if_neg hp] at h
      cases hk : findLoop p rest with
      | none => rw [hk] at h; cases h
      | some k' =>
        rw [hk] at h
        simp only [Option.map_some'] at h
        cases h
        obtain ⟨n, hn, hpn, hfirst⟩ := ih k' hk
        refine ⟨n, by rw [List.getElem?_cons_succ]; exact hn, hpn, ?_⟩
        intro j m hj hm
        cases j with
        | zero =>
          simp only [List.getElem?_cons_zero] at hm
          cases hm
          simpa using hp
        | succ j =>
          simp only [List.getElem?_cons_succ] at hm
          exact hfirst j m (by omega) hm

theorem findLoop_none_spec (p : α → Bool) :
    ∀ l : List α, (findLoop p l = none ↔ ∀ x ∈ l, p x = false) := by
  intro l
  induction l with
  | nil => simp [findLoop]
  | cons d rest ih =>
    rw [findLoop]
    by_cases hp : p d
    · simp [hp]
    · simp only [if_neg hp]
      constructor
      · intro h x hx
        rcases List.mem_cons.mp hx with rfl | hx2
        · simpa using hp
        · have : findLoop p rest = none := by
            cases hk : findLoop p rest with
            | none => rfl
            | some k => rw [hk] at h; cases h
          exact ih.mp this x hx2
      · intro h
        rw [ih.mpr (fun x hx => h x (List.mem_cons_of_mem d hx))]
        rfl

theorem findLoopSteps_le (p : α → Bool) : ∀ l : List α, findLoopSteps p l ≤ l.length := by
  intro l
  induction l with
  | nil => rw [findLoopSteps]; simp
  | cons d rest ih =>
    rw [findLoopSteps]
    by_cases hp : p d
    · simp [hp]
    · simp only [if_neg hp, List.length_cons]
      omega

/-- C6: `core_list_find` with criteria `idx ≥ 0` returns the first node
whose rank equals the criteria rank; with `idx < 0` it returns the first
node whose `data16` low byte equals the criteria's `data16` value; it
returns none exactly when no node matches; and the scan visits each node of
the chain at most once (the number of loop iterations is bounded by the
chain length). -/
theorem core_list_find_correct (l : List (LNode ListData)) (info : ListData) :
    (0 ≤ info.idx →
      ((∀ k, core_list_find l info = some k →
        ∃ n, l[k]? = some n ∧ n.dat.idx = info.idx ∧
          ∀ j m, j < k → l[j]? = some m → m.dat.idx ≠ info.idx) ∧
      (core_list_find l info = none ↔ ∀ n ∈ l, n.dat.idx ≠ info.idx))) ∧
    (info.idx < 0 →
      ((∀ k, core_list_find l info = some k →
        ∃ n, l[k]? = some n ∧ ((n.dat.data16 &&& 0xff : Nat) : Int) = toS16 info.data16 ∧
          ∀ j m, j < k → l[j]? = some m →
            ((m.dat.data16 &&& 0xff : Nat) : Int) ≠ toS16 info.data16) ∧
      (core_list_find l info = none ↔
        ∀ n ∈ l, ((n.dat.data16 &&& 0xff : Nat) : Int) ≠ toS16 info.data16))) ∧
    findLoopSteps (find_pred info) l ≤ l.length := by
  refine ⟨?_, ?_, findLoopSteps_le _ l⟩
  · intro hpos
    have hpred : find_pred info = fun n => n.dat.idx == info.idx := by
      rw [find_pred, if_pos hpos]
    constructor
    · intro k hk
      rw [core_list_find_eq, hpred] at hk
      obtain ⟨n, hn, hpn, hfirst⟩ := findLoop_some_spec _ l k hk
      refine ⟨n, hn, by simpa using hpn, ?_⟩
      intro j m hj hm
      have := hfirst j m hj hm
      simpa using this
    · rw [core_list_find_eq, hpred, findLoop_none_spec]
      constructor
      · intro h n hn
        have := h n hn
        simpa using this
      · intro h n hn
        simpa using h n hn
  · intro hneg
    have hpred : find_pred info
        = fun n => ((n.dat.data16 &&& 0xff : Nat) : Int) == toS16 info.data16 := by
      rw [find_pred, if_neg (by omega)]
    constructor
    · intro k hk
      rw [core_list_find_eq, hpred] at hk
      obtain ⟨n, hn, hpn, hfirst⟩ := findLoop_some_spec _ l k hk
      refine ⟨n, hn, by simpa using hpn, ?_⟩
      intro j m hj hm
      have := hfirst j m hj hm
      simpa using this
    · rw [core_list_find_eq, hpred, findLoop_none_spec]
      constructor
      · intro h n hn
        have := h n hn
        simpa using this
      · intro h n hn
        simpa using h n hn

/-- Witness for C6 on a concrete three-node chain: rank search finds
position 1, value search finds position 2, and an absent rank yields none. -/
theorem core_list_find_correct_witness :
    (∃ n, ([⟨0, ⟨0, 0x8080⟩⟩, ⟨1, ⟨2, 5⟩⟩, ⟨2, ⟨7, 0x0203⟩⟩] :
        List (LNode ListData))[1]? = some n ∧ n.dat.idx = (⟨2, 0⟩ : ListData).idx ∧
      ∀ j m, j < 1 → ([⟨0, ⟨0, 0x8080⟩⟩, ⟨1, ⟨2, 5⟩⟩, ⟨2, ⟨7, 0x0203⟩⟩] :
        List (LNode ListData))[j]? = some m → m.dat.idx ≠ (⟨2, 0⟩ : ListData).idx) := by
  have h := (core_list_find_correct [⟨0, ⟨0, 0x8080⟩⟩, ⟨1, ⟨2, 5⟩⟩, ⟨2, ⟨7, 0x0203⟩⟩]
    ⟨2, 0⟩).1 (by decide)
  exact h.1 1 (by decide)

/-!
### The CRC scans of `core_bench_list` re-read the head's record (C9)
-/

/-- `data16` of the record owned by the chain's first node (the benchmark
never scans an empty chain). -/
def headData16 : List (LNode ListData) → Nat
  | [] => 0
  | n :: _ => n.dat.data16

/-- The scan loop `while (finder) { retval = crc16(list->info->data16,
retval); finder = finder->next; }` of `core_bench_list` (lines 213-217 and
226-230): at every visited node it folds the data of the *head* of `list`,
re-read on each iteration, never the visited node's data. -/
def core_bench_scan (list : List (LNode ListData)) : List (LNode ListData) → Nat → Nat
  | [], retval => retval
  | _ :: rest, retval => core_bench_scan list rest (crc16 (headData16 list) retval)

/-- C9: each CRC scan contributes `crc16` iterated on the constant
`list->info->data16` (the head node's record data) once per visited node —
the scan result depends only on the scan length, not on the visited nodes'
contents. -/
theorem core_bench_scan_head_only (list finder : List (LNode ListData)) (retval : Nat) :
    core_bench_scan list finder retval
        = (fun c => crc16 (headData16 list) c)^[finder.length] retval
      ∧ ∀ finder' : List (LNode ListData), finder'.length = finder.length →
          core_bench_scan list finder' retval = core_bench_scan list finder retval := by
  have main : ∀ (fd : List (LNode ListData)) (r : Nat),
      core_bench_scan list fd r = (fun c => crc16 (headData16 list) c)^[fd.length] r := by
    intro fd
    induction fd with
    | nil => intro r; rw [core_bench_scan]; rfl
    | cons n rest ih =>
      intro r
      rw [core_bench_scan, ih]
      rw [List.length_cons, Function.iterate_succ_apply]
  refine ⟨main finder retval, ?_⟩
  intro finder' hlen
  rw [main finder' retval, main finder retval, hlen]

/-!
## The state-machine collaborator (src/all.c lines 1447-1732)

`enum CORE_STATE` is declared in `coremark.h`, which is not under `src/`.
Modelled from the spec (§1: "finite-state text classification", states for
int/float/scientific/invalid tokens) with the upstream CoreMark ordering:
0 = START, 1 = INVALID, 2 = S1, 3 = S2, 4 = INT, 5 = FLOAT, 6 = EXPONENT,
7 = SCIENTIFIC; `NUM_CORE_STATES = 8`.
-/

def ee_isdigit (c : Nat) : Bool := 48 ≤ c && c ≤ 57

/-- `transition_count[i]++`. -/
def bumpCount (l : List Nat) (i : Nat) : List Nat := l.set i (l.getD i 0 + 1)

/-- The switch body of `core_state_transition` for one non-comma,
non-terminator symbol: next state and updated transition counts. -/
def core_state_step (state : Nat) (ch : Nat) (counts : List Nat) : Nat × List Nat :=
  match state with
  | 0 =>
    if ee_isdigit ch then (4, bumpCount counts 0)
    else if ch = 43 || ch = 45 then (2, bumpCount counts 0)
    else if ch = 46 then (5, bumpCount counts 0)
    else (1, bumpCount (bumpCount counts 1) 0)
  | 2 =>
    if ee_isdigit ch then (4, bumpCount counts 2)
    else if ch = 46 then (5, bumpCount counts 2)
    else (1, bumpCount counts 2)
  | 4 =>
    if ch = 46 then (5, bumpCount counts 4)
    else if !ee_isdigit ch then (1, bumpCount counts 4)
    else (4, counts)
  | 5 =>
    if ch = 69 || ch = 101 then (3, bumpCount counts 5)
    else if !ee_isdigit ch then (1, bumpCount counts 5)
    else (5, counts)
  | 3 =>
    if ch = 43 || ch = 45 then (6, bumpCount counts 3)
    else (1, bumpCount counts 3)
  | 6 =>
    if ee_isdigit ch then (7, bumpCount counts 6)
    else (1, bumpCount counts 6)
  | 7 =>
    if !ee_isdigit ch then (1, bumpCount counts 1)
    else (7, counts)
  | s => (s, counts)

/-- The `for (; *str && state != CORE_INVALID; str++)` loop of
`core_state_transition`: returns the final state, the remaining input
(after the consumed token) and the updated transition counts. -/
def core_state_transition : List Nat → Nat → List Nat → Nat × List Nat × List Nat
  | [], state, counts => (state, [], counts)
  | ch :: rest, state, counts =>
    if ch = 0 || state = 1 then (state, ch :: rest, counts)
    else if ch = 44 then (state, rest, counts)
    else
      let r := core_state_step state ch counts
      core_state_transition rest r.1 r.2

/-- The `while (*p != 0)` scan of `core_bench_state`: run the state machine
token by token, counting final states in `final` and transitions in
`track`.  Fuel bounds the number of tokens (each consumes at least one
byte). -/
def benchStateScan : Nat → List Nat → List Nat → List Nat → List Nat × List Nat
  | 0, _, final, track => (final, track)
  | _ + 1, [], final, track => (final, track)
  | fuel + 1, ch :: rest, final, track =>
    if ch = 0 then (final, track)
    else
      let r := core_state_transition (ch :: rest) 0 track
      benchStateScan fuel r.2.1 (bumpCount final r.1) r.2.2

/-- The body of the corruption loop of `core_bench_state`, tracking the
byte offset `i`. -/
def corruptFrom (step seed : Nat) : Nat → List Nat → List Nat
  | _, [] => []
  | i, b :: rest =>
    (if i % step = 0 && b ≠ 44 then b ^^^ seed else b) :: corruptFrom step seed (i + 1) rest

/-- The corruption loop of `core_bench_state`: xor `seed` into every
`step`-th byte that is not a comma. -/
def corruptBuf (buf : List Nat) (step seed : Nat) : List Nat :=
  corruptFrom step seed 0 buf

/-- The final CRC accumulation of `core_bench_state`:
`for i: crc = crcu32(final[i], crc); crc = crcu32(track[i], crc)`. -/
def crcCounts : List Nat → List Nat → Nat → Nat
  | [], _, crc => crc
  | _, [], crc => crc
  | f :: fs, t :: ts, crc => crcCounts fs ts (crcu32 t (crcu32 f crc))

/-- `core_bench_state`: scan, corrupt with `seed1`, scan again, undo the
corruption with `seed2`, then fold the sixteen counters into the CRC.
Returns the CRC and the final buffer. -/
def core_bench_state (buf : List Nat) (seed1 seed2 step crc : Nat) : Nat × List Nat :=
  let z8 : List Nat := List.replicate 8 0
  let s1 := benchStateScan buf.length buf z8 z8
  let buf1 := corruptBuf buf step (u8 seed1)
  let s2 := benchStateScan buf1.length buf1 s1.1 s1.2
  let buf2 := corruptBuf buf1 step (u8 seed2)
  (crcCounts s2.1 s2.2 crc, buf2)

/-!
### `core_init_state` (src/all.c lines 1541-1597)
-/

def intpat : List (List Nat) :=
  [[53, 48, 49, 50], [49, 50, 51, 52], [45, 56, 55, 52], [43, 49, 50, 50]]
def floatpat : List (List Nat) :=
  [[51, 53, 46, 53, 52, 52, 48, 48], [46, 49, 50, 51, 52, 53, 48, 48],
   [45, 49, 49, 48, 46, 55, 48, 48], [43, 48, 46, 54, 52, 52, 48, 48]]
def scipat : List (List Nat) :=
  [[53, 46, 53, 48, 48, 101, 43, 51], [45, 46, 49, 50, 51, 101, 45, 50],
   [45, 56, 55, 101, 43, 56, 51, 50], [43, 48, 46, 54, 101, 45, 49, 50]]
def errpat : List (List Nat) :=
  [[84, 48, 46, 51, 101, 45, 49, 70], [45, 84, 46, 84, 43, 43, 84, 113],
   [49, 84, 51, 46, 52, 101, 52, 122], [51, 52, 46, 48, 101, 45, 84, 94]]

/-- The pattern selection of `core_init_state`'s switch on `seed & 0x7`. -/
def statePatSelect (sd : Nat) : List Nat × Nat :=
  let pick (tbl : List (List Nat)) : List Nat := tbl.getD ((sd >>> 3) &&& 0x3) []
  match sd &&& 0x7 with
  | 0 | 1 | 2 => (pick intpat, 4)
  | 3 | 4 => (pick floatpat, 8)
  | 5 | 6 => (pick scipat, 8)
  | _ => (pick errpat, 8)

/-- The fill loop of `core_init_state` (`size` here is the decremented
size, i.e. original − 1): write the previously selected pattern plus a
comma while it still fits, then advance the seed and select the next
pattern.  Returns the written bytes (in order) and the final `total`. -/
def initStateLoop (size1 : Nat) : Nat → Nat → Nat → Nat → List Nat → List Nat × Nat
  | 0, _, total, _, _ => ([], total)
  | fuel + 1, sd, total, next, pat =>
    if total + next + 1 < size1 then
      let total' := if next > 0 then total + next + 1 else total
      let sd' := u16 (sd + 1)
      let sel := statePatSelect sd'
      let rest := initStateLoop size1 fuel sd' total' sel.2 sel.1
      ((if next > 0 then pat ++ 44 :: rest.1 else rest.1), rest.2)
    else ([], total)

/-- `core_init_state`: populate the input with the interspersed patterns
and zero-fill the rest of the region. -/
def core_init_state (size : Nat) (seed : Nat) : List Nat :=
  let r := initStateLoop (size - 1) size (u16 seed) 0 0 []
  r.1 ++ List.replicate (size - r.2) 0

/-!
## The matrix collaborator (src/all.c lines 1134-1402 and simple.c)

`MATDAT`/`MATRES` are typedefs from the missing porting header; modelled
from the de-facto CoreMark port as 16-bit and 32-bit signed integers.
`HAS_FLOAT` must be set for this file to compile (the `matrix_clip` macro
for the no-float case is syntactically invalid), so `matrix_clip` and
`matrix_big` are the identity.  Matrices are row-major lists of signed
values. -/

/-- Wrap an integer to the signed 16-bit range (`(MATDAT)x`). -/
def wrapS16 (i : Int) : Int := toS16 (ofS16 i)

/-- Wrap an integer to the signed 32-bit range (`(MATRES)x`). -/
def wrapS32 (i : Int) : Int := toS32 ((i % 4294967296).toNat)

structure MatParams where
  A : List Int
  B : List Int
  N : Nat
  deriving DecidableEq, Repr

/-- The `while (j < blksize) { i++; j = i * i * 2 * 4; }` dimensioning loop
of `core_init_matrix`. -/
def matDimLoop (blksize : Nat) : Nat → Nat → Nat → Nat
  | 0, i, _ => i
  | fuel + 1, i, j => if j < blksize then matDimLoop blksize fuel (i + 1) ((i + 1) * (i + 1) * 2 * 4) else i

/-- The value-generation loop of `core_init_matrix` (row-major over both
matrices): `seed = (order * seed) % 65536; B = seed + order;
A = B + order;` with 16-bit stores.  Returns `(B-values, A-values)`. -/
def matInitLoop : Nat → Nat → Nat → List Int × List Int
  | 0, _, _ => ([], [])
  | k + 1, seed, order =>
    let seed' := (order * seed) % 65536
    let val1 := wrapS16 ((seed' : Int) + order)
    let val2 := wrapS16 (val1 + order)
    let rest := matInitLoop k seed' (order + 1)
    (val1 :: rest.1, val2 :: rest.2)

/-- `core_init_matrix` for a non-negative 32-bit seed (the validated run
uses `seed1 | (seed2 << 16) = 0`, replaced by 1). -/
def core_init_matrix (blksize : Nat) (seed0 : Nat) : MatParams :=
  let seed := if seed0 = 0 then 1 else seed0
  let N := matDimLoop blksize blksize 0 0 - 1
  let r := matInitLoop (N * N) seed 1
  ⟨r.2, r.1, N⟩

/-- `matrix_add_const`: add a constant to every element of `A` (16-bit
elements, wrapping). -/
def matrix_add_const (A : List Int) (val : Int) : List Int :=
  A.map (fun x => wrapS16 (x + val))

/-- `matrix_mul_const`: `C[i][j] = A[i][j] * val` into 32-bit results. -/
def matrix_mul_const (A : List Int) (val : Int) : List Int :=
  A.map (fun x => wrapS32 (x * val))

/-- `matrix_sum`: clipped running sum with +10/+1 scoring. -/
def matrix_sum (C : List Int) (clipval : Int) : Int :=
  let r := C.foldl (fun (st : Int × Int × Int) cur =>
    let tmp := wrapS32 (st.1 + cur)
    let prev := st.2.1
    let ret := st.2.2
    if tmp > clipval then (0, cur, wrapS16 (ret + 10))
    else (tmp, cur, wrapS16 (ret + (if cur > prev then 1 else 0)))) (0, 0, 0)
  r.2.2

/-- One dot product `sum_k A[i*N+k] * B[k*N+j]` with 32-bit accumulation in
source order. -/
def matDot (N : Nat) (A B : List Int) (i j : Nat) : Int :=
  (List.range N).foldl (fun acc k =>
    wrapS32 (acc + (A.getD (i * N + k) 0) * (B.getD (k * N + j) 0))) 0

/-- `matrix_mul_vect`: writes only the first `N` cells of `C`. -/
def matrix_mul_vect (N : Nat) (A B : List Int) : List Int :=
  (List.range N).map (fun i =>
    (List.range N).foldl (fun acc j =>
      wrapS32 (acc + (A.getD (i * N + j) 0) * (B.getD j 0))) 0)

/-- `matrix_mul_matrix`: full `N×N` product with 32-bit accumulation. -/
def matrix_mul_matrix (N : Nat) (A B : List Int) : List Int :=
  (List.range N).flatMap (fun i => (List.range N).map (fun j => matDot N A B i j))

/-- `matrix_mul_matrix_bitextract` as it stands in this repository: the
accumulation line is commented out, so every cell is left at the `0` it was
just assigned. -/
def matrix_mul_matrix_bitextract (N : Nat) : List Int :=
  List.replicate (N * N) 0

/-- `matrix_test`: the five-step sequence, accumulating a 16-bit CRC of the
four `matrix_sum` results; `A` is perturbed and then restored by the final
`add_const` (exactly, thanks to 16-bit wrap-around).  Returns the CRC
pattern and the final `A`. -/
def matrix_test (N : Nat) (A B : List Int) (val : Int) : Nat × List Int :=
  let clipval := val
  let A1 := matrix_add_const A val
  let C1 := matrix_mul_const A1 val
  let crc1 := crc16 (ofS16 (matrix_sum C1 clipval)) 0
  let C2 := matrix_mul_vect N A1 B ++ C1.drop N
  let crc2 := crc16 (ofS16 (matrix_sum C2 clipval)) crc1
  let C3 := matrix_mul_matrix N A1 B
  let crc3 := crc16 (ofS16 (matrix_sum C3 clipval)) crc2
  let C4 := matrix_mul_matrix_bitextract N
  let crc4 := crc16 (ofS16 (matrix_sum C4 clipval)) crc3
  let A2 := matrix_add_const A1 (-val)
  (crc4, A2)

/-- `core_bench_matrix`: one `matrix_test` folded into the CRC. -/
def core_bench_matrix (mat : MatParams) (seed : Int) (crc : Nat) : Nat × MatParams :=
  let r := matrix_test mat.N mat.A mat.B seed
  (crc16 r.1 crc, ⟨r.2, mat.B, mat.N⟩)

/-!
## `calc_func`, `cmp_complex` and the benchmark orchestrator
(src/all.c lines 69-235 and 631-668)
-/

/-- The `core_results` fields the list benchmark reads or writes.  `chain`
stands for `res->list` (the benchmark restores the original head node to
the front before returning, so carrying the chain by value is faithful;
this is checked on the reference run).  `stateBuf` is `memblock[3]` (one
byte per cell, exactly `size` bytes), `mat` is `res->mat`. -/
structure CoreResults where
  chain : List (LNode ListData)
  stateBuf : List Nat
  mat : MatParams
  seed1 : Nat
  seed2 : Nat
  seed3 : Nat
  crc : Nat
  crcstate : Nat
  crcmatrix : Nat
  deriving DecidableEq, Repr

/-- `calc_func`: if the cached bit (7) of the record data is set, return the
low 7 bits; otherwise dispatch on bits 0-2 (0 = state machine, 1 = matrix,
else identity), fold the raw result into `res->crc`, and cache the 7-bit
result (with bit 7 set) back into the record.  Returns
`(returned value, updated data16, updated results)`. -/
def calc_func (data : Nat) (res : CoreResults) : Int × Nat × CoreResults :=
  let optype := (data >>> 7) &&& 1
  if optype = 1 then (((data &&& 0x7f : Nat) : Int), data, res)
  else
    let flag := data &&& 0x7
    let dtype0 := (data >>> 3) &&& 0xf
    let dtype := dtype0 ||| (dtype0 <<< 4)
    let step1 : Nat × CoreResults :=
      if flag = 0 then
        let d2 := if dtype < 0x22 then 0x22 else dtype
        let r := core_bench_state res.stateBuf res.seed1 res.seed2 d2 res.crc
        (r.1, { res with stateBuf := r.2,
                         crcstate := if res.crcstate = 0 then r.1 else res.crcstate })
      else if flag = 1 then
        let r := core_bench_matrix res.mat ((dtype : Nat) : Int) res.crc
        (r.1, { res with mat := r.2,
                         crcmatrix := if res.crcmatrix = 0 then r.1 else res.crcmatrix })
      else (data, res)
    let res2 := { step1.2 with crc := crcu16 step1.1 step1.2.crc }
    let retval := step1.1 &&& 0x7f
    ((retval : Int), (data &&& 0xff00) ||| 0x0080 ||| retval, res2)

/-- `cmp_complex` lifted to chain nodes: recompute (or fetch) both cached
values through `calc_func` — left first — and compare them. -/
def cmp_complex_node : LNode ListData → LNode ListData → CoreResults →
    Int × LNode ListData × LNode ListData × CoreResults :=
  fun a b res =>
    let r1 := calc_func a.dat.data16 res
    let r2 := calc_func b.dat.data16 r1.2.2
    (r1.1 - r2.1, ⟨a.id, ⟨a.dat.idx, r1.2.1⟩⟩, ⟨b.id, ⟨b.dat.idx, r2.2.1⟩⟩, r2.2.2)

def defaultNode : LNode ListData := ⟨0, ⟨0, 0⟩⟩

/-- The find/reverse loop of `core_bench_list` (`find_num` iterations):
search, reverse the whole chain, account a hit or miss into `retval`, and
on a hit with a successor move that successor behind the new head.
Returns the final chain, `retval`, `found`, `missed` and the final
criteria `idx`. -/
def benchFindLoop : Nat → Nat → Int → List (LNode ListData) → Nat → Nat → Nat →
    List (LNode ListData) × Nat × Nat × Nat × Int
  | 0, _, infoIdx, list, retval, found, missed => (list, retval, found, missed, infoIdx)
  | rem + 1, i, infoIdx, list, retval, found, missed =>
    let info : ListData := ⟨infoIdx, i &&& 0xff⟩
    let this_find := core_list_find list info
    let lrev := core_list_reverse list
    let n := lrev.length
    let step : List (LNode ListData) × Nat × Nat × Nat :=
      match this_find with
      | none =>
        (lrev, u16 (retval + (((lrev.getD 1 defaultNode).dat.data16 >>> 8) &&& 1)),
          found, missed + 1)
      | some j =>
        let node := list.getD j defaultNode
        let retval' := if node.dat.data16 &&& 0x1 = 1
          then u16 (retval + ((node.dat.data16 >>> 9) &&& 1)) else retval
        let k := n - 1 - j
        let lnew := if k + 1 < n then
            match lrev with
            | [] => lrev
            | h :: t => h :: t.getD k defaultNode :: t.eraseIdx k
          else lrev
        (lnew, retval', found + 1, missed)
    let infoIdx' := if 0 ≤ infoIdx then infoIdx + 1 else infoIdx
    benchFindLoop rem (i + 1) infoIdx' step.1 step.2.1 step.2.2.1 step.2.2.2

/-- `core_bench_list`: the full benchmark pass — find/reverse loop, hit/miss
weighting, content sort (for positive `finder_idx`), remove of the second
node, CRC scan from the found position, undo, rank re-sort, final CRC scan.
Returns the 16-bit `retval` and the updated results (with the restored
chain). -/
def core_bench_list (res : CoreResults) (finder_idx : Int) : Nat × CoreResults :=
  let find_num := (toS16 res.seed3).toNat
  let fl := benchFindLoop find_num 0 finder_idx res.chain 0 0 0
  let list1 := fl.1
  let retval0 := fl.2.1
  let found := fl.2.2.1
  let missed := fl.2.2.2.1
  let infoIdxF := fl.2.2.2.2
  let infoData16F : Nat := if find_num = 0 then 0 else (find_num - 1) &&& 0xff
  let retval1 := ofS16 ((retval0 : Int) + 4 * (found : Int) - (missed : Int))
  let sorted1 :=
    if 0 < finder_idx then
      (core_list_mergesort cmp_complex_node list1 res).getD (list1, res)
    else (list1, res)
  let list2 := sorted1.1
  let res1 := sorted1.2
  let removed := (core_list_remove list2 1).getD (list2, defaultNode)
  let list3 := removed.1
  let finder := core_list_find list3 ⟨infoIdxF, infoData16F⟩
  let jstart := match finder with | some j => j | none => 1
  let retval2 := core_bench_scan list3 (list3.drop jstart) retval1
  let list4 := (core_list_undo_remove removed.2 list3 1).getD list3
  let sorted2 := (core_list_mergesort (liftNodeCmp cmp_idx_null) list4 ()).getD (list4, ())
  let list5 := sorted2.1
  let retval3 := core_bench_scan list5 (list5.drop 1) retval2
  (retval3, { res1 with chain := list5 })

/-- The first iteration of `iterate`: zero the accumulators, run the
benchmark with `finder_idx = 1` then `-1`, folding each return value into
`res->crc`; `res->crclist` is the accumulator after this first
iteration. -/
def iterate_first (res : CoreResults) : CoreResults :=
  let res0 := { res with crc := 0, crcstate := 0, crcmatrix := 0 }
  let r1 := core_bench_list res0 1
  let resA := { r1.2 with crc := crcu16 r1.1 r1.2.crc }
  let r2 := core_bench_list resA (-1)
  { r2.2 with crc := crcu16 r2.1 r2.2.crc }

/-- The reference configuration: seeds `(0, 0, 0x66)`, 2000 bytes per
algorithm (`res->size = 2000` after the division by `num_algorithms`;
`memblock[1]`/`memblock[2]`/`memblock[3]` hold the list, matrix and state
regions). -/
def coremark_reference_results : CoreResults :=
  { chain := (core_list_init 2000 0).getD []
  , stateBuf := core_init_state 2000 0
  , mat := core_init_matrix 2000 0
  , seed1 := 0, seed2 := 0, seed3 := 0x66
  , crc := 0, crcstate := 0, crcmatrix := 0 }

/-- `res->crclist` after the first full iteration of `iterate` on the
reference configuration. -/
def coremark_crclist : Nat := (iterate_first coremark_reference_results).crc


/-!
## The reference run (C3): seeds `(0, 0, 0x66)`, 2000 bytes per algorithm

On this configuration the heavy collaborator calls collapse: corrupting
with a zero seed is the identity, so every `core_bench_state` call scans
the same buffer starting from zeroed counters; `matrix_test` restores `A`
exactly, so every `core_bench_matrix` call sees the same matrices, and only
the two `dtype` seeds `0x11` and `0x99` occur on this chain.  The
collaborator results are computed once below and the benchmark is reduced
to them by congruence.
-/

/-- The state-machine input for the reference run (`core_init_state 2000 0`,
proved below). -/
def sbufC : List Nat := [53, 48, 49, 50, 44, 53, 48, 49, 50, 44, 51, 53, 46, 53, 52, 52, 48, 48, 44, 51, 53, 46, 53, 52, 52, 48, 48, 44, 53, 46, 53, 48, 48, 101, 43, 51, 44, 53, 46, 53, 48, 48, 101, 43, 51, 44, 84, 48, 46, 51, 101, 45, 49, 70, 44, 49, 50, 51, 52, 44, 49, 50, 51, 52, 44, 49, 50, 51, 52, 44, 46, 49, 50, 51, 52, 53, 48, 48, 44, 46, 49, 50, 51, 52, 53, 48, 48, 44, 45, 46, 49, 50, 51, 101, 45, 50, 44, 45, 46, 49, 50, 51, 101, 45, 50, 44, 45, 84, 46, 84, 43, 43, 84, 113, 44, 45, 56, 55, 52, 44, 45, 56, 55, 52, 44, 45, 56, 55, 52, 44, 45, 49, 49, 48, 46, 55, 48, 48, 44, 45, 49, 49, 48, 46, 55, 48, 48, 44, 45, 56, 55, 101, 43, 56, 51, 50, 44, 45, 56, 55, 101, 43, 56, 51, 50, 44, 49, 84, 51, 46, 52, 101, 52, 122, 44, 43, 49, 50, 50, 44, 43, 49, 50, 50, 44, 43, 49, 50, 50, 44, 43, 48, 46, 54, 52, 52, 48, 48, 44, 43, 48, 46, 54, 52, 52, 48, 48, 44, 43, 48, 46, 54, 101, 45, 49, 50, 44, 43, 48, 46, 54, 101, 45, 49, 50, 44, 51, 52, 46, 48, 101, 45, 84, 94, 44, 53, 48, 49, 50, 44, 53, 48, 49, 50, 44, 53, 48, 49, 50, 44, 51, 53, 46, 53, 52, 52, 48, 48, 44, 51, 53, 46, 53, 52, 52, 48, 48, 44, 53, 46, 53, 48, 48, 101, 43, 51, 44, 53, 46, 53, 48, 48, 101, 43, 51, 44, 84, 48, 46, 51, 101, 45, 49, 70, 44, 49, 50, 51, 52, 44, 49, 50, 51, 52, 44, 49, 50, 51, 52, 44, 46, 49, 50, 51, 52, 53, 48, 48, 44, 46, 49, 50, 51, 52, 53, 48, 48, 44, 45, 46, 49, 50, 51, 101, 45, 50, 44, 45, 46, 49, 50, 51, 101, 45, 50, 44, 45, 84, 46, 84, 43, 43, 84, 113, 44, 45, 56, 55, 52, 44, 45, 56, 55, 52, 44, 45, 56, 55, 52, 44, 45, 49, 49, 48, 46, 55, 48, 48, 44, 45, 49, 49, 48, 46, 55, 48, 48, 44, 45, 56, 55, 101, 43, 56, 51, 50, 44, 45, 56, 55, 101, 43, 56, 51, 50, 44, 49, 84, 51, 46, 52, 101, 52, 122, 44, 43, 49, 50, 50, 44, 43, 49, 50, 50, 44, 43, 49, 50, 50, 44, 43, 48, 46, 54, 52, 52, 48, 48, 44, 43, 48, 46, 54, 52, 52, 48, 48, 44, 43, 48, 46, 54, 101, 45, 49, 50, 44, 43, 48, 46, 54, 101, 45, 49, 50, 44, 51, 52, 46, 48, 101, 45, 84, 94, 44, 53, 48, 49, 50, 44, 53, 48, 49, 50, 44, 53, 48, 49, 50, 44, 51, 53, 46, 53, 52, 52, 48, 48, 44, 51, 53, 46, 53, 52, 52, 48, 48, 44, 53, 46, 53, 48, 48, 101, 43, 51, 44, 53, 46, 53, 48, 48, 101, 43, 51, 44, 84, 48, 46, 51, 101, 45, 49, 70, 44, 49, 50, 51, 52, 44, 49, 50, 51, 52, 44, 49, 50, 51, 52, 44, 46, 49, 50, 51, 52, 53, 48, 48, 44, 46, 49, 50, 51, 52, 53, 48, 48, 44, 45, 46, 49, 50, 51, 101, 45, 50, 44, 45, 46, 49, 50, 51, 101, 45, 50, 44, 45, 84, 46, 84, 43, 43, 84, 113, 44, 45, 56, 55, 52, 44, 45, 56, 55, 52, 44, 45, 56, 55, 52, 44, 45, 49, 49, 48, 46, 55, 48, 48, 44, 45, 49, 49, 48, 46, 55, 48, 48, 44, 45, 56, 55, 101, 43, 56, 51, 50, 44, 45, 56, 55, 101, 43, 56, 51, 50, 44, 49, 84, 51, 46, 52, 101, 52, 122, 44, 43, 49, 50, 50, 44, 43, 49, 50, 50, 44, 43, 49, 50, 50, 44, 43, 48, 46, 54, 52, 52, 48, 48, 44, 43, 48, 46, 54, 52, 52, 48, 48, 44, 43, 48, 46, 54, 101, 45, 49, 50, 44, 43, 48, 46, 54, 101, 45, 49, 50, 44, 51, 52, 46, 48, 101, 45, 84, 94, 44, 53, 48, 49, 50, 44, 53, 48, 49, 50, 44, 53, 48, 49, 50, 44, 51, 53, 46, 53, 52, 52, 48, 48, 44, 51, 53, 46, 53, 52, 52, 48, 48, 44, 53, 46, 53, 48, 48, 101, 43, 51, 44, 53, 46, 53, 48, 48, 101, 43, 51, 44, 84, 48, 46, 51, 101, 45, 49, 70, 44, 49, 50, 51, 52, 44, 49, 50, 51, 52, 44, 49, 50, 51, 52, 44, 46, 49, 50, 51, 52, 53, 48, 48, 44, 46, 49, 50, 51, 52, 53, 48, 48, 44, 45, 46, 49, 50, 51, 101, 45, 50, 44, 45, 46, 49, 50, 51, 101, 45, 50, 44, 45, 84, 46, 84, 43, 43, 84, 113, 44, 45, 56, 55, 52, 44, 45, 56, 55, 52, 44, 45, 56, 55, 52, 44, 45, 49, 49, 48, 46, 55, 48, 48, 44, 45, 49, 49, 48, 46, 55, 48, 48, 44, 45, 56, 55, 101, 43, 56, 51, 50, 44, 45, 56, 55, 101, 43, 56, 51, 50, 44, 49, 84, 51, 46, 52, 101, 52, 122, 44, 43, 49, 50, 50, 44, 43, 49, 50, 50, 44, 43, 49, 50, 50, 44, 43, 48, 46, 54, 52, 52, 48, 48, 44, 43, 48, 46, 54, 52, 52, 48, 48, 44, 43, 48, 46, 54, 101, 45, 49, 50, 44, 43, 48, 46, 54, 101, 45, 49, 50, 44, 51, 52, 46, 48, 101, 45, 84, 94, 44, 53, 48, 49, 50, 44, 53, 48, 49, 50, 44, 53, 48, 49, 50, 44, 51, 53, 46, 53, 52, 52, 48, 48, 44, 51, 53, 46, 53, 52, 52, 48, 48, 44, 53, 46, 53, 48, 48, 101, 43, 51, 44, 53, 46, 53, 48, 48, 101, 43, 51, 44, 84, 48, 46, 51, 101, 45, 49, 70, 44, 49, 50, 51, 52, 44, 49, 50, 51, 52, 44, 49, 50, 51, 52, 44, 46, 49, 50, 51, 52, 53, 48, 48, 44, 46, 49, 50, 51, 52, 53, 48, 48, 44, 45, 46, 49, 50, 51, 101, 45, 50, 44, 45, 46, 49, 50, 51, 101, 45, 50, 44, 45, 84, 46, 84, 43, 43, 84, 113, 44, 45, 56, 55, 52, 44, 45, 56, 55, 52, 44, 45, 56, 55, 52, 44, 45, 49, 49, 48, 46, 55, 48, 48, 44, 45, 49, 49, 48, 46, 55, 48, 48, 44, 45, 56, 55, 101, 43, 56, 51, 50, 44, 45, 56, 55, 101, 43, 56, 51, 50, 44, 49, 84, 51, 46, 52, 101, 52, 122, 44, 43, 49, 50, 50, 44, 43, 49, 50, 50, 44, 43, 49, 50, 50, 44, 43, 48, 46, 54, 52, 52, 48, 48, 44, 43, 48, 46, 54, 52, 52, 48, 48, 44, 43, 48, 46, 54, 101, 45, 49, 50, 44, 43, 48, 46, 54, 101, 45, 49, 50, 44, 51, 52, 46, 48, 101, 45, 84, 94, 44, 53, 48, 49, 50, 44, 53, 48, 49, 50, 44, 53, 48, 49, 50, 44, 51, 53, 46, 53, 52, 52, 48, 48, 44, 51, 53, 46, 53, 52, 52, 48, 48, 44, 53, 46, 53, 48, 48, 101, 43, 51, 44, 53, 46, 53, 48, 48, 101, 43, 51, 44, 84, 48, 46, 51, 101, 45, 49, 70, 44, 49, 50, 51, 52, 44, 49, 50, 51, 52, 44, 49, 50, 51, 52, 44, 46, 49, 50, 51, 52, 53, 48, 48, 44, 46, 49, 50, 51, 52, 53, 48, 48, 44, 45, 46, 49, 50, 51, 101, 45, 50, 44, 45, 46, 49, 50, 51, 101, 45, 50, 44, 45, 84, 46, 84, 43, 43, 84, 113, 44, 45, 56, 55, 52, 44, 45, 56, 55, 52, 44, 45, 56, 55, 52, 44, 45, 49, 49, 48, 46, 55, 48, 48, 44, 45, 49, 49, 48, 46, 55, 48, 48, 44, 45, 56, 55, 101, 43, 56, 51, 50, 44, 45, 56, 55, 101, 43, 56, 51, 50, 44, 49, 84, 51, 46, 52, 101, 52, 122, 44, 43, 49, 50, 50, 44, 43, 49, 50, 50, 44, 43, 49, 50, 50, 44, 43, 48, 46, 54, 52, 52, 48, 48, 44, 43, 48, 46, 54, 52, 52, 48, 48, 44, 43, 48, 46, 54, 101, 45, 49, 50, 44, 43, 48, 46, 54, 101, 45, 49, 50, 44, 51, 52, 46, 48, 101, 45, 84, 94, 44, 53, 48, 49, 50, 44, 53, 48, 49, 50, 44, 53, 48, 49, 50, 44, 51, 53, 46, 53, 52, 52, 48, 48, 44, 51, 53, 46, 53, 52, 52, 48, 48, 44, 53, 46, 53, 48, 48, 101, 43, 51, 44, 53, 46, 53, 48, 48, 101, 43, 51, 44, 84, 48, 46, 51, 101, 45, 49, 70, 44, 49, 50, 51, 52, 44, 49, 50, 51, 52, 44, 49, 50, 51, 52, 44, 46, 49, 50, 51, 52, 53, 48, 48, 44, 46, 49, 50, 51, 52, 53, 48, 48, 44, 45, 46, 49, 50, 51, 101, 45, 50, 44, 45, 46, 49, 50, 51, 101, 45, 50, 44, 45, 84, 46, 84, 43, 43, 84, 113, 44, 45, 56, 55, 52, 44, 45, 56, 55, 52, 44, 45, 56, 55, 52, 44, 45, 49, 49, 48, 46, 55, 48, 48, 44, 45, 49, 49, 48, 46, 55, 48, 48, 44, 45, 56, 55, 101, 43, 56, 51, 50, 44, 45, 56, 55, 101, 43, 56, 51, 50, 44, 49, 84, 51, 46, 52, 101, 52, 122, 44, 43, 49, 50, 50, 44, 43, 49, 50, 50, 44, 43, 49, 50, 50, 44, 43, 48, 46, 54, 52, 52, 48, 48, 44, 43, 48, 46, 54, 52, 52, 48, 48, 44, 43, 48, 46, 54, 101, 45, 49, 50, 44, 43, 48, 46, 54, 101, 45, 49, 50, 44, 51, 52, 46, 48, 101, 45, 84, 94, 44, 53, 48, 49, 50, 44, 53, 48, 49, 50, 44, 53, 48, 49, 50, 44, 51, 53, 46, 53, 52, 52, 48, 48, 44, 51, 53, 46, 53, 52, 52, 48, 48, 44, 53, 46, 53, 48, 48, 101, 43, 51, 44, 53, 46, 53, 48, 48, 101, 43, 51, 44, 84, 48, 46, 51, 101, 45, 49, 70, 44, 49, 50, 51, 52, 44, 49, 50, 51, 52, 44, 49, 50, 51, 52, 44, 46, 49, 50, 51, 52, 53, 48, 48, 44, 46, 49, 50, 51, 52, 53, 48, 48, 44, 45, 46, 49, 50, 51, 101, 45, 50, 44, 45, 46, 49, 50, 51, 101, 45, 50, 44, 45, 84, 46, 84, 43, 43, 84, 113, 44, 45, 56, 55, 52, 44, 45, 56, 55, 52, 44, 45, 56, 55, 52, 44, 45, 49, 49, 48, 46, 55, 48, 48, 44, 45, 49, 49, 48, 46, 55, 48, 48, 44, 45, 56, 55, 101, 43, 56, 51, 50, 44, 45, 56, 55, 101, 43, 56, 51, 50, 44, 49, 84, 51, 46, 52, 101, 52, 122, 44, 43, 49, 50, 50, 44, 43, 49, 50, 50, 44, 43, 49, 50, 50, 44, 43, 48, 46, 54, 52, 52, 48, 48, 44, 43, 48, 46, 54, 52, 52, 48, 48, 44, 43, 48, 46, 54, 101, 45, 49, 50, 44, 43, 48, 46, 54, 101, 45, 49, 50, 44, 51, 52, 46, 48, 101, 45, 84, 94, 44, 53, 48, 49, 50, 44, 53, 48, 49, 50, 44, 53, 48, 49, 50, 44, 51, 53, 46, 53, 52, 52, 48, 48, 44, 51, 53, 46, 53, 52, 52, 48, 48, 44, 53, 46, 53, 48, 48, 101, 43, 51, 44, 53, 46, 53, 48, 48, 101, 43, 51, 44, 84, 48, 46, 51, 101, 45, 49, 70, 44, 49, 50, 51, 52, 44, 49, 50, 51, 52, 44, 49, 50, 51, 52, 44, 0, 0, 0, 0, 0, 0, 0, 0, 0, 0]

/-- Final-state counters after one scan of `sbufC` from zero. -/
def F1C : List Nat := [33, 114, 0, 0, 117, 66, 0, 50]
/-- Transition counters after one scan of `sbufC` from zero. -/
def T1C : List Nat := [347, 50, 160, 75, 133, 83, 67, 0]
/-- Final-state counters after the second scan. -/
def F2C : List Nat := [66, 228, 0, 0, 234, 132, 0, 100]
/-- Transition counters after the second scan. -/
def T2C : List Nat := [694, 100, 320, 150, 266, 166, 134, 0]

/-- Matrix `A` of the reference run (`core_init_matrix 2000 0`). -/
def matAC : List Int := [3, 6, 12, 32, 130, 732, 5054, (-25200), (-30318), 24340, 5398, (-1000), (-13286), 10268, 22558, (-32736), (-32734), 36, 38, 40, 42, 44, 46, 48, 50, 52, 54, 56, 58, 60, 62, 64, 66, 68, 70, 72, 74, 76, 78, 80, 82, 84, 86, 88, 90, 92, 94, 96, 98, 100, 102, 104, 106, 108, 110, 112, 114, 116, 118, 120, 122, 124, 126, 128, 130, 132, 134, 136, 138, 140, 142, 144, 146, 148, 150, 152, 154, 156, 158, 160, 162, 164, 166, 168, 170, 172, 174, 176, 178, 180, 182, 184, 186, 188, 190, 192, 194, 196, 198, 200, 202, 204, 206, 208, 210, 212, 214, 216, 218, 220, 222, 224, 226, 228, 230, 232, 234, 236, 238, 240, 242, 244, 246, 248, 250, 252, 254, 256, 258, 260, 262, 264, 266, 268, 270, 272, 274, 276, 278, 280, 282, 284, 286, 288, 290, 292, 294, 296, 298, 300, 302, 304, 306, 308, 310, 312, 314, 316, 318, 320, 322, 324, 326, 328, 330, 332, 334, 336, 338, 340, 342, 344, 346, 348, 350, 352, 354, 356, 358, 360, 362, 364, 366, 368, 370, 372, 374, 376, 378, 380, 382, 384, 386, 388, 390, 392, 394, 396, 398, 400, 402, 404, 406, 408, 410, 412, 414, 416, 418, 420, 422, 424, 426, 428, 430, 432, 434, 436, 438, 440, 442, 444, 446, 448, 450]

/-- Matrix `B` of the reference run. -/
def matBC : List Int := [2, 4, 9, 28, 125, 726, 5047, (-25208), (-30327), 24330, 5387, (-1012), (-13299), 10254, 22543, (-32752), (-32751), 18, 19, 20, 21, 22, 23, 24, 25, 26, 27, 28, 29, 30, 31, 32, 33, 34, 35, 36, 37, 38, 39, 40, 41, 42, 43, 44, 45, 46, 47, 48, 49, 50, 51, 52, 53, 54, 55, 56, 57, 58, 59, 60, 61, 62, 63, 64, 65, 66, 67, 68, 69, 70, 71, 72, 73, 74, 75, 76, 77, 78, 79, 80, 81, 82, 83, 84, 85, 86, 87, 88, 89, 90, 91, 92, 93, 94, 95, 96, 97, 98, 99, 100, 101, 102, 103, 104, 105, 106, 107, 108, 109, 110, 111, 112, 113, 114, 115, 116, 117, 118, 119, 120, 121, 122, 123, 124, 125, 126, 127, 128, 129, 130, 131, 132, 133, 134, 135, 136, 137, 138, 139, 140, 141, 142, 143, 144, 145, 146, 147, 148, 149, 150, 151, 152, 153, 154, 155, 156, 157, 158, 159, 160, 161, 162, 163, 164, 165, 166, 167, 168, 169, 170, 171, 172, 173, 174, 175, 176, 177, 178, 179, 180, 181, 182, 183, 184, 185, 186, 187, 188, 189, 190, 191, 192, 193, 194, 195, 196, 197, 198, 199, 200, 201, 202, 203, 204, 205, 206, 207, 208, 209, 210, 211, 212, 213, 214, 215, 216, 217, 218, 219, 220, 221, 222, 223, 224, 225]

/-- The built list of the reference run (`core_list_init 2000 0`). -/
def chainC : List (LNode ListData) := [LNode.mk 0 (ListData.mk 0 32896), LNode.mk 96 (ListData.mk 1 30326), LNode.mk 95 (ListData.mk 2 28013), LNode.mk 94 (ListData.mk 3 25700), LNode.mk 93 (ListData.mk 4 23387), LNode.mk 92 (ListData.mk 5 21074), LNode.mk 91 (ListData.mk 6 18761), LNode.mk 90 (ListData.mk 7 16448), LNode.mk 89 (ListData.mk 8 16191), LNode.mk 88 (ListData.mk 9 13878), LNode.mk 87 (ListData.mk 10 11565), LNode.mk 86 (ListData.mk 11 9252), LNode.mk 85 (ListData.mk 12 6939), LNode.mk 84 (ListData.mk 13 4626), LNode.mk 83 (ListData.mk 14 2313), LNode.mk 82 (ListData.mk 15 0), LNode.mk 81 (ListData.mk 16 32639), LNode.mk 80 (ListData.mk 17 30326), LNode.mk 79 (ListData.mk 18 28013), LNode.mk 74 (ListData.mk 23 16448), LNode.mk 66 (ListData.mk 31 0), LNode.mk 58 (ListData.mk 39 16448), LNode.mk 50 (ListData.mk 47 0), LNode.mk 42 (ListData.mk 55 16448), LNode.mk 34 (ListData.mk 63 0), LNode.mk 26 (ListData.mk 71 16448), LNode.mk 18 (ListData.mk 79 0), LNode.mk 10 (ListData.mk 87 16448), LNode.mk 2 (ListData.mk 95 0), LNode.mk 73 (ListData.mk 280 16191), LNode.mk 65 (ListData.mk 288 32639), LNode.mk 57 (ListData.mk 296 16191), LNode.mk 49 (ListData.mk 304 32639), LNode.mk 41 (ListData.mk 312 16191), LNode.mk 33 (ListData.mk 320 32639), LNode.mk 25 (ListData.mk 328 16191), LNode.mk 17 (ListData.mk 336 32639), LNode.mk 9 (ListData.mk 344 16191), LNode.mk 72 (ListData.mk 537 13878), LNode.mk 64 (ListData.mk 545 30326), LNode.mk 56 (ListData.mk 553 13878), LNode.mk 48 (ListData.mk 561 30326), LNode.mk 40 (ListData.mk 569 13878), LNode.mk 32 (ListData.mk 577 30326), LNode.mk 24 (ListData.mk 585 13878), LNode.mk 16 (ListData.mk 593 30326), LNode.mk 8 (ListData.mk 601 13878), LNode.mk 71 (ListData.mk 794 11565), LNode.mk 63 (ListData.mk 802 28013), LNode.mk 55 (ListData.mk 810 11565), LNode.mk 47 (ListData.mk 818 28013), LNode.mk 39 (ListData.mk 826 11565), LNode.mk 31 (ListData.mk 834 28013), LNode.mk 23 (ListData.mk 842 11565), LNode.mk 15 (ListData.mk 850 28013), LNode.mk 7 (ListData.mk 858 11565), LNode.mk 78 (ListData.mk 1043 25700), LNode.mk 70 (ListData.mk 1051 9252), LNode.mk 62 (ListData.mk 1059 25700), LNode.mk 54 (ListData.mk 1067 9252), LNode.mk 46 (ListData.mk 1075 25700), LNode.mk 38 (ListData.mk 1083 9252), LNode.mk 30 (ListData.mk 1091 25700), LNode.mk 22 (ListData.mk 1099 9252), LNode.mk 14 (ListData.mk 1107 25700), LNode.mk 6 (ListData.mk 1115 9252), LNode.mk 77 (ListData.mk 1300 23387), LNode.mk 69 (ListData.mk 1308 6939), LNode.mk 61 (ListData.mk 1316 23387), LNode.mk 53 (ListData.mk 1324 6939), LNode.mk 45 (ListData.mk 1332 23387), LNode.mk 37 (ListData.mk 1340 6939), LNode.mk 29 (ListData.mk 1348 23387), LNode.mk 21 (ListData.mk 1356 6939), LNode.mk 13 (ListData.mk 1364 23387), LNode.mk 5 (ListData.mk 1372 6939), LNode.mk 76 (ListData.mk 1557 21074), LNode.mk 68 (ListData.mk 1565 4626), LNode.mk 60 (ListData.mk 1573 21074), LNode.mk 52 (ListData.mk 1581 4626), LNode.mk 44 (ListData.mk 1589 21074), LNode.mk 36 (ListData.mk 1597 4626), LNode.mk 28 (ListData.mk 1605 21074), LNode.mk 20 (ListData.mk 1613 4626), LNode.mk 12 (ListData.mk 1621 21074), LNode.mk 4 (ListData.mk 1629 4626), LNode.mk 75 (ListData.mk 1814 18761), LNode.mk 67 (ListData.mk 1822 2313), LNode.mk 59 (ListData.mk 1830 18761), LNode.mk 51 (ListData.mk 1838 2313), LNode.mk 43 (ListData.mk 1846 18761), LNode.mk 35 (ListData.mk 1854 2313), LNode.mk 27 (ListData.mk 1862 18761), LNode.mk 19 (ListData.mk 1870 2313), LNode.mk 11 (ListData.mk 1878 18761), LNode.mk 3 (ListData.mk 1886 2313), LNode.mk 1 (ListData.mk 32767 65535)]

set_option maxRecDepth 1000000 in
theorem sbufC_eq : core_init_state 2000 0 = sbufC := by decide!

theorem sbufC_len : sbufC.length = 2000 := by decide!

set_option maxRecDepth 1000000 in
theorem matC_eq : core_init_matrix 2000 0 = ⟨matAC, matBC, 15⟩ := by decide!

set_option maxRecDepth 1000000 in
theorem chainC_eq : (core_list_init 2000 0).getD [] = chainC := by decide!

set_option maxRecDepth 1000000 in
theorem scan1_eq :
    benchStateScan 2000 sbufC (List.replicate 8 0) (List.replicate 8 0) = (F1C, T1C) := by
  decide!

set_option maxRecDepth 1000000 in
theorem scan2_eq : benchStateScan 2000 sbufC F1C T1C = (F2C, T2C) := by decide!

set_option maxRecDepth 1000000 in
theorem mtest17_eq : matrix_test 15 matAC matBC 17 = (42205, matAC) := by decide!

set_option maxRecDepth 1000000 in
theorem mtest153_eq : matrix_test 15 matAC matBC 153 = (3038, matAC) := by decide!

/-- Corruption with a zero seed is the identity (xor with 0). -/
theorem corruptFrom_zero (step : Nat) : ∀ (i : Nat) (l : List Nat),
    corruptFrom step 0 i l = l
  | _, [] => rfl
  | i, b :: rest => by
    rw [corruptFrom, corruptFrom_zero step (i + 1) rest]
    by_cases h : i % step = 0 && b ≠ 44 <;> simp [h]

theorem corruptBuf_zero (buf : List Nat) (step : Nat) : corruptBuf buf step 0 = buf :=
  corruptFrom_zero step 0 buf

/-- Every state-benchmark call of the reference run returns the same counter
CRC: the buffer is `sbufC` throughout, both corruption passes are identity
(`seed1 = seed2 = 0`), and the counters always start from zero. -/
theorem core_bench_state_const (step crc : Nat) :
    core_bench_state sbufC 0 0 step crc = (crcCounts F2C T2C crc, sbufC) := by
  have hu : u8 0 = 0 := rfl
  simp only [core_bench_state, hu, corruptBuf_zero, sbufC_len, scan1_eq, scan2_eq]

/-- The matrix benchmark with seed `0x11` on the reference matrices. -/
theorem core_bench_matrix_17 (crc : Nat) :
    core_bench_matrix ⟨matAC, matBC, 15⟩ 17 crc = (crc16 42205 crc, ⟨matAC, matBC, 15⟩) := by
  simp only [core_bench_matrix, mtest17_eq]

/-- The matrix benchmark with seed `0x99` on the reference matrices. -/
theorem core_bench_matrix_153 (crc : Nat) :
    core_bench_matrix ⟨matAC, matBC, 15⟩ 153 crc = (crc16 3038 crc, ⟨matAC, matBC, 15⟩) := by
  simp only [core_bench_matrix, mtest153_eq]



/-- The sixteen packed (not yet cached) record data values occurring on the
reference chain (`(dat << 8) | dat` with `dat = ((i & 0xf) << 3) | (i & 7)`,
seed 0). -/
def okPacked : List Nat :=
  [30326, 28013, 25700, 23387, 21074, 18761, 16448, 16191, 13878, 11565,
   9252, 6939, 4626, 2313, 0, 32639]

/-- Record data admissible during the reference sort: one of the sixteen
packed values, or a 16-bit value with the cache bit (bit 7) set. -/
def OkData (d : Nat) : Prop := d ∈ okPacked ∨ (d < 65536 ∧ d / 128 % 2 = 1)

instance (d : Nat) : Decidable (OkData d) :=
  inferInstanceAs (Decidable (d ∈ okPacked ∨ (d < 65536 ∧ d / 128 % 2 = 1)))

def OkNode (n : LNode ListData) : Prop := OkData n.dat.data16

instance (n : LNode ListData) : Decidable (OkNode n) :=
  inferInstanceAs (Decidable (OkData n.dat.data16))

/-- The `core_results` fields read by `calc_func`, pinned to the reference
run. -/
def OkRes (res : CoreResults) : Prop :=
  res.stateBuf = sbufC ∧ res.mat = ⟨matAC, matBC, 15⟩ ∧ res.seed1 = 0 ∧ res.seed2 = 0





/-- `core_bench_state` as it behaves on every call of the reference run. -/
def core_bench_state_fast (buf : List Nat) (crc : Nat) : Nat × List Nat :=
  (crcCounts F2C T2C crc, buf)

/-- `core_bench_matrix` as it behaves on every call of the reference run
(only the seeds `0x11` and `0x99` occur). -/
def core_bench_matrix_fast (mat : MatParams) (seed : Int) (crc : Nat) : Nat × MatParams :=
  (crc16 (if seed = 17 then 42205 else 3038) crc, mat)

/-- `calc_func` with the collaborator calls replaced by their reference-run
results. -/
def calc_func_fast (data : Nat) (res : CoreResults) : Int × Nat × CoreResults :=
  let optype := (data >>> 7) &&& 1
  if optype = 1 then (((data &&& 0x7f : Nat) : Int), data, res)
  else
    let flag := data &&& 0x7
    let dtype0 := (data >>> 3) &&& 0xf
    let dtype := dtype0 ||| (dtype0 <<< 4)
    let step1 : Nat × CoreResults :=
      if flag = 0 then
        let r := core_bench_state_fast res.stateBuf res.crc
        (r.1, { res with stateBuf := r.2,
                         crcstate := if res.crcstate = 0 then r.1 else res.crcstate })
      else if flag = 1 then
        let r := core_bench_matrix_fast res.mat ((dtype : Nat) : Int) res.crc
        (r.1, { res with mat := r.2,
                         crcmatrix := if res.crcmatrix = 0 then r.1 else res.crcmatrix })
      else (data, res)
    let res2 := { step1.2 with crc := crcu16 step1.1 step1.2.crc }
    let retval := step1.1 &&& 0x7f
    ((retval : Int), (data &&& 0xff00) ||| 0x0080 ||| retval, res2)



theorem chainC_ok : ∀ x ∈ chainC, OkNode x := by decide!

set_option maxRecDepth 1000000 in
theorem or_low_bits : ∀ H < 256, ∀ x < 128, ((256 * H + 128) ||| x) = 256 * H + 128 + x := by
  decide!

end CoreMark
